import Mathlib

/-!
# Verification of the Smart Grid first-fit layout plugin

This file gives a shallow embedding of the two JavaScript variants of the
smart-grid plugin (the production variant `jquery.grid.js`, here prefixed
with no marker, and the older scanning variant `src/js/grid.js`, prefixed
with `Js`), and proves or refutes the claims of the specification about
them.

Modelling conventions:
* The virtual occupancy grid (a JS array of arrays) is `List (List (Option ℕ))`.
  A cell holds `some id` when `grid[i][j]` is a placed element id and `none`
  when the slot is `undefined`.  In every reachable state rows are
  materialized contiguously (positions come from `firstEmptySpace`, which
  never returns a row index beyond `grid.length`), so a plain list of rows is
  faithful; reading a missing row or a missing cell yields `none`, matching
  `undefined` reads.
* Writing `grid[i][j] = v` beyond the current length extends the JS array
  with holes; we model this by padding with `none` (for rows, with `[]`),
  which is read-equivalent.
* `Math.random`-driven shuffling is abstracted by a caller-supplied function
  `sh : ℕ → List Size → List Size` giving, for the k-th shuffle call of the
  run, the permuted pool.  The concrete Fisher-Yates loop of the source is
  embedded as `shuffleFY`, parametrized by the stream of values
  `Math.floor(Math.random() * currentIndex)`.
* The in-place mutation of `s.sizes` (and of the `classSizes` pools) by
  `shuffle` is modelled by threading the pool through the state
  (`PackState.sizes`, `PackState.classSizes`).
* Element sizes are pairs `(rows, cols)`.  The per-index override list
  `startsWith` is a `List (Option Size)` (a sparse JS array).  The
  `classSizes` option is an association list in key-insertion order, and an
  element is its list of class names.
* `data('rows')` / `data('cols')` of a placed element are stored in a
  `Placement`; the normalizer mutates them, and `shrinkRows` can (on
  inputs outside the reachable states we prove about) compute the JS value
  `shrinkTo - pos[X] + 1` below zero, so these two fields are `ℤ`.
* DOM drawing is out of scope; the separator lines that the extraction
  passes would draw are returned as `VSeg` / `HSeg` values instead.
-/

/-- An element size `(rows, cols)` as used by the plugin. -/
abbrev Size := ℕ × ℕ

/-- One materialized row of the virtual grid. -/
abbrev Row := List (Option ℕ)

/-- The virtual occupancy grid. -/
abbrev Grid := List Row

/-- Reading `grid[i][j]`: `none` when the row or the cell is `undefined`. -/
def cellG (g : Grid) (i j : ℕ) : Option ℕ :=
  (g.getD i []).getD j none

/-- Extend the grid with empty rows so that index `n - 1` exists (JS array
length extension caused by assigning at index `n - 1`). -/
def padTo (g : Grid) (n : ℕ) : Grid :=
  g ++ List.replicate (n - g.length) []

/-- `row[j] = v`, extending the row with `undefined` holes if needed. -/
def setInRow (row : Row) (j : ℕ) (v : Option ℕ) : Row :=
  (row ++ List.replicate (j + 1 - row.length) none).set j v

/-- Apply `f` to row `i` if it exists, else leave the grid unchanged. -/
def modifyRow (g : Grid) (i : ℕ) (f : Row → Row) : Grid :=
  match g.get? i with
  | some r => g.set i (f r)
  | none => g

/-- Inner marking loop of the packer: set `row[j0] .. row[j0+w-1]` to `some id`. -/
def markRow (row : Row) (j0 id : ℕ) : ℕ → Row
  | 0 => row
  | w + 1 => markRow (setInRow row j0 (some id)) (j0 + 1) id w

/-- The marking loop `for (i = pos[X]; i < pos[X] + config.rows; i++) { if
(grid[i] === undefined) grid[i] = []; for (j = pos[Y]; j < pos[Y] +
config.cols; j++) grid[i][j] = config.id; }`. -/
def markElement (g : Grid) (i0 j0 id w : ℕ) : ℕ → Grid
  | 0 => g
  | r + 1 => markElement (modifyRow (padTo g (i0 + 1)) i0 (fun row => markRow row j0 id w)) (i0 + 1) j0 id w r

/-- Helper for `intRange`: the `n` integers starting at `a`. -/
def intRangeAux (a : ℤ) : ℕ → List ℤ
  | 0 => []
  | n + 1 => a :: intRangeAux (a + 1) n

/-- The integers `a, a+1, ..., b-1`, i.e. the indices visited by
`for (i = a; i < b; i++)` over possibly signed bounds. -/
def intRange (a b : ℤ) : List ℤ :=
  intRangeAux a (b - a).toNat

/-- `grid[i][j] = v` for a signed index pair, used by the normalizer: the JS
code indexes only already-materialized rows here, so the row list length is
left unchanged (a write to a missing or negative row is dropped). -/
def writeCellZ (g : Grid) (i j : ℤ) (v : Option ℕ) : Grid :=
  if 0 ≤ i ∧ 0 ≤ j then modifyRow g i.toNat (fun row => setInRow row j.toNat v) else g

/-- Write `v` into every cell whose row index is in `ris` and whose column
index is in `cjs` (the nested for-loops of `shrinkRows` and of the
expand-last pass). -/
def writeCells (g : Grid) (ris cjs : List ℤ) (v : Option ℕ) : Grid :=
  ris.foldl (fun g' i => cjs.foldl (fun g'' j => writeCellZ g'' i j v) g') g

/-- Stored `data(config)` of a placed element: its id, top-left position and
current `rows` / `cols` spans (the latter two are mutated by the
normalizer and can be computed as arbitrary integers by `shrinkRows`). -/
structure Placement where
  id : ℕ
  pos : ℕ × ℕ
  rows : ℤ
  cols : ℤ
deriving DecidableEq, Repr

/-- Swap two positions of a list (one step of the Fisher-Yates loop). -/
def listSwap (l : List α) (a b : ℕ) : List α :=
  match l.get? a, l.get? b with
  | some x, some y => (l.set a y).set b x
  | _, _ => l

/-- The Fisher-Yates loop of `shuffle`, with `currentIndex` counting down
from `n`; `rnd c` stands for `Math.floor(Math.random() * c)` drawn when
`currentIndex = c` (reduced `mod c` so that any stream is in range). -/
def shuffleFYAux (rnd : ℕ → ℕ) : ℕ → List α → List α
  | 0, l => l
  | c + 1, l => shuffleFYAux rnd c (listSwap l c (rnd (c + 1) % (c + 1)))

/-- `shuffle(array)`: a Fisher-Yates permutation of the list, driven by the
random stream `rnd`. -/
def shuffleFY (rnd : ℕ → ℕ) (l : List α) : List α :=
  shuffleFYAux rnd l.length l

/-- A canonical shuffle-call family (all random draws are 0), used to
instantiate the abstract shuffle parameter on concrete runs. -/
def shZero : ℕ → List Size → List Size :=
  fun _ l => shuffleFY (fun _ => 0) l

/-- `isAllocable(size, pos)` of the production variant: the width check
`pos[Y] + size[Y] - 1 >= s.cols` followed by the occupancy scan
`grid[i] !== undefined && grid[i][j] >= 0` over the rectangle. -/
def isAllocable (g : Grid) (cols : ℕ) (size : Size) (pos : ℕ × ℕ) : Bool :=
  if (pos.2 : ℤ) + size.2 - 1 ≥ (cols : ℤ) then false
  else (List.range size.1).all (fun di =>
    (List.range size.2).all (fun dj => !(cellG g (pos.1 + di) (pos.2 + dj)).isSome))

/-- Inner loop of `firstEmptySpace`: first `j` with `j0 ≤ j < j0 + rem` and
`row[j] === undefined`. -/
def rowFEAux (row : Row) : ℕ → ℕ → Option ℕ
  | 0, _ => none
  | rem + 1, j => if row.getD j none = none then some j else rowFEAux row rem (j + 1)

/-- First empty column of a row, scanning `j = 0 .. cols-1`. -/
def rowFirstEmpty (row : Row) (cols : ℕ) : Option ℕ :=
  rowFEAux row cols 0

/-- Outer loop of `firstEmptySpace` with the running row index. -/
def feAux (cols : ℕ) : Grid → ℕ → ℕ × ℕ
  | [], i => (i, 0)
  | r :: rs, i =>
    match rowFirstEmpty r cols with
    | some j => (i, j)
    | none => feAux cols rs (i + 1)

/-- `firstEmptySpace()`: row-major scan for the first `undefined` cell;
`[grid.length, 0]` when every materialized cell is taken. -/
def firstEmptySpace (g : Grid) (cols : ℕ) : ℕ × ℕ :=
  feAux cols g 0

/-- `getRandomSize(pos, elementsRemaining, sizes)`.  The pool is shuffled
first (mutating the caller's array: the shuffled pool is returned as the
second component), the last element is forced to `[1, 1]`, otherwise the
first allocable entry of the shuffled pool is chosen, with fallback `[1, 1]`. -/
def getRandomSize (sh1 : List Size → List Size) (g : Grid) (cols : ℕ) (pos : ℕ × ℕ)
    (remaining : ℕ) (sizes : List Size) : Size × List Size :=
  let sizes' := sh1 sizes
  if remaining = 1 then ((1, 1), sizes')
  else
    match sizes'.find? (fun sz => isAllocable g cols sz pos) with
    | some sz => (sz, sizes')
    | none => ((1, 1), sizes')

/-- Result of the per-element size resolution (default pool selection, the
`startsWith` override, and the `classSizes` correction loop). -/
structure ResolveResult where
  size : Size
  sizes : List Size
  rndIdx : ℕ
  classSizes : List (String × List Size)
deriving Repr

/-- The `for (var key in s.classSizes)` loop: for each key, if the element
has the class and the current size is not a member of the class pool (the
`stringify`-join comparison of the source is equality of the pairs),
reselect from the class pool, whose shuffled version is stored back. -/
def classSizesLoop (sh : ℕ → List Size → List Size) (g : Grid) (cols : ℕ) (pos : ℕ × ℕ)
    (remaining : ℕ) (classes : List String) :
    List (String × List Size) → Size → ℕ → Size × ℕ × List (String × List Size)
  | [], sz, ridx => (sz, ridx, [])
  | (key, pool) :: rest, sz, ridx =>
    if classes.contains key && !(pool.contains sz) then
      let r := getRandomSize (sh ridx) g cols pos remaining pool
      let out := classSizesLoop sh g cols pos remaining classes rest r.1 (ridx + 1)
      (out.1, out.2.1, (key, r.2) :: out.2.2)
    else
      let out := classSizesLoop sh g cols pos remaining classes rest sz ridx
      (out.1, out.2.1, (key, pool) :: out.2.2)

/-- Size resolution for the element at insertion index `k`:
`size = getRandomSize(...)`, then `size = s.startsWith[i] || size`, then the
`classSizes` loop. -/
def resolveSize (sh : ℕ → List Size → List Size) (g : Grid) (cols : ℕ) (pos : ℕ × ℕ)
    (remaining k : ℕ) (sizes : List Size) (startsWith : List (Option Size))
    (classSizes : List (String × List Size)) (classes : List String) (ridx : ℕ) :
    ResolveResult :=
  let r0 := getRandomSize (sh ridx) g cols pos remaining sizes
  let size1 := (startsWith.getD k none).getD r0.1
  let out := classSizesLoop sh g cols pos remaining classes classSizes size1 (ridx + 1)
  ⟨out.1, r0.2, out.2.1, out.2.2⟩

/-- Mutable state of the packing loop: the grid, the (shuffle-mutated)
global pool and class pools, the count of shuffle calls made so far, and the
per-element `data(config)` records in insertion order. -/
structure PackState where
  grid : Grid
  sizes : List Size
  classSizes : List (String × List Size)
  rndIdx : ℕ
  placements : List Placement
deriving Repr

/-- One iteration of the `$elements.each` packing loop for the element with
insertion index `k` (out of `n`), with class list `classes`. -/
def packStep (sh : ℕ → List Size → List Size) (cols n : ℕ) (startsWith : List (Option Size))
    (st : PackState) (classes : List String) (k : ℕ) : PackState :=
  let pos := firstEmptySpace st.grid cols
  let r := resolveSize sh st.grid cols pos (n - k) k st.sizes startsWith st.classSizes classes st.rndIdx
  let g' := markElement st.grid pos.1 pos.2 k r.size.2 r.size.1
  ⟨g', r.sizes, r.classSizes, r.rndIdx, st.placements ++ [⟨k, pos, (r.size.1 : ℤ), (r.size.2 : ℤ)⟩]⟩

/-- The packing loop over the remaining elements, `k` being the insertion
index of the first of them. -/
def packList (sh : ℕ → List Size → List Size) (cols n : ℕ) (startsWith : List (Option Size)) :
    List (List String) → ℕ → PackState → PackState
  | [], _, st => st
  | cs :: rest, k, st => packList sh cols n startsWith rest (k + 1) (packStep sh cols n startsWith st cs k)

/-- `shrinkRows($element, shrinkTo)`: clear the cells of the element below
row `shrinkTo` and set its `rows` to `shrinkTo - pos[X] + 1`. -/
def shrinkRows (g : Grid) (pls : List Placement) (eid : ℕ) (shrinkTo : ℤ) :
    Grid × List Placement :=
  match pls.get? eid with
  | none => (g, pls)
  | some p =>
    let g' := writeCells g (intRange (shrinkTo + 1) ((p.pos.1 : ℤ) + p.rows))
      (intRange (p.pos.2 : ℤ) ((p.pos.2 : ℤ) + p.cols)) none
    (g', pls.set eid { p with rows := shrinkTo - (p.pos.1 : ℤ) + 1 })

/-- One step of the two shrink passes: if the scanned cell holds an element
id, shrink that element to `shrinkTo`. -/
def shrinkScanStep (shrinkTo : ℤ) (row : ℤ) (acc : Grid × List Placement) (col : ℤ) :
    Grid × List Placement :=
  if 0 ≤ row ∧ 0 ≤ col then
    match cellG acc.1 row.toNat col.toNat with
    | some id => shrinkRows acc.1 acc.2 id shrinkTo
    | none => acc
  else acc

/-- Pass 1: shrink elements left of the last element that end below it. -/
def normPass1 (g : Grid) (pls : List Placement) (posLast : ℕ × ℕ)
    (rowsLast : ℤ) : Grid × List Placement :=
  if 0 ≤ (posLast.1 : ℤ) + rowsLast ∧ ((posLast.1 : ℤ) + rowsLast).toNat < g.length then
    (List.range posLast.2).foldl
      (fun acc i => shrinkScanStep ((posLast.1 : ℤ) + rowsLast - 1) ((posLast.1 : ℤ) + rowsLast) acc (i : ℤ))
      (g, pls)
  else (g, pls)

/-- The `allFilled` scan of the normalizer: every cell of row `posLast[X]`
from column `posLast[Y] + colsLast` up to `s.cols - 1` is occupied. -/
def rowAllFilled (cols : ℕ) (g : Grid) (posLast : ℕ × ℕ) (colsLast : ℤ) : Bool :=
  (intRange ((posLast.2 : ℤ) + colsLast) (cols : ℤ)).all
    (fun j => 0 ≤ j && (cellG g posLast.1 j.toNat).isSome)

/-- Pass 2: shrink elements right of the last element that end at its row. -/
def normPass2 (cols : ℕ) (s1 : Grid × List Placement) (posLast : ℕ × ℕ)
    (colsLast : ℤ) : Grid × List Placement :=
  if rowAllFilled cols s1.1 posLast colsLast then s1
  else (intRange ((posLast.2 : ℤ) + colsLast) (cols : ℤ)).foldl
    (shrinkScanStep ((posLast.1 : ℤ) - 1) (posLast.1 : ℤ)) s1

/-- Pass 3: expand the last element to the end of the grid. -/
def normPass3 (cols : ℕ) (s2 : Grid × List Placement) (posLast : ℕ × ℕ)
    (rowsLast colsLast : ℤ) (lastId : ℕ) : Grid × List Placement :=
  if rowAllFilled cols s2.1 posLast colsLast then s2
  else
    (writeCells s2.1 (intRange (posLast.1 : ℤ) ((posLast.1 : ℤ) + rowsLast))
        (intRange ((posLast.2 : ℤ) + colsLast) (cols : ℤ)) (some lastId),
      match s2.2.get? (s2.2.length - 1) with
      | some p => s2.2.set (s2.2.length - 1) { p with cols := (cols : ℤ) - (posLast.2 : ℤ) }
      | none => s2.2)

/-- The three passes of the normalizer followed by the truncation of the
grid (`$last` data captured up front: `posLast`, `rowsLast`, `colsLast`). -/
def normalizePasses (cols : ℕ) (g : Grid) (pls : List Placement) (lst : Placement) :
    Grid × List Placement :=
  ((normPass3 cols (normPass2 cols (normPass1 g pls lst.pos lst.rows) lst.pos lst.cols)
      lst.pos lst.rows lst.cols lst.id).1.take ((lst.pos.1 : ℤ) + lst.rows).toNat,
    (normPass3 cols (normPass2 cols (normPass1 g pls lst.pos lst.rows) lst.pos lst.cols)
      lst.pos lst.rows lst.cols lst.id).2)

/-- The three normalization passes and the final truncation of the grid, run
after the packing loop (`$last` is the last inserted element). -/
def normalizeGrid (cols : ℕ) (g : Grid) (pls : List Placement) : Grid × List Placement :=
  match pls.getLast? with
  | none => (g, pls)
  | some lst => normalizePasses cols g pls lst

/-- A drawn vertical separator: the column boundary it sits on (between
columns `col` and `col + 1`) and the inclusive row range it spans. -/
structure VSeg where
  col : ℕ
  rowStart : ℕ
  rowEnd : ℕ
deriving DecidableEq, Repr

/-- A drawn horizontal separator: the row boundary it sits on (between rows
`row` and `row + 1`) and the inclusive column range it spans. -/
structure HSeg where
  row : ℕ
  colStart : ℕ
  colEnd : ℕ
deriving DecidableEq, Repr

/-- `isRightFrontier(x, y)`: the occupant changes between `(x, y)` and
`(x, y+1)` (with the `grid[x] !== undefined` guard). -/
def isRightFrontier (g : Grid) (x y : ℕ) : Bool :=
  decide (x < g.length) && decide (cellG g x y ≠ cellG g x (y + 1))

/-- `isTopFrontier(x, y)`: the occupant changes between `(x, y)` and
`(x+1, y)`. -/
def isTopFrontier (g : Grid) (x y : ℕ) : Bool :=
  decide (cellG g x y ≠ cellG g (x + 1) y)

/-- The vertical grouping loop on one column boundary: accumulate maximal
runs of consecutive rows satisfying `p`, emitting `(start, end)` pairs.
The `start`/`end` nulls of the source are the `Option` state: on a
satisfied row the run is opened (`(x, x)` when the state was `none`, since
`(st.getD (x, x)).1` is then `x`) or extended to `x`; on a failed row the
pending run, if any (`st.toList`), is emitted. -/
def vertRunsAux (p : ℕ → Bool) : Option (ℕ × ℕ) → ℕ → ℕ → List (ℕ × ℕ)
  | st, _, 0 => st.toList
  | st, x, n + 1 =>
    if p x then
      vertRunsAux p (some ((st.getD (x, x)).1, x)) (x + 1) n
    else
      st.toList ++ vertRunsAux p none (x + 1) n

/-- The horizontal grouping loop on one row boundary: like `vertRunsAux`,
but a pending run (`st.isSome`) is also emitted and restarted at `(y, y)`
when extending it would cross a vertical separator (`cross` at the column
boundary `y - 1` the run is crossing). -/
def horizRunsAux (p cross : ℕ → Bool) : Option (ℕ × ℕ) → ℕ → ℕ → List (ℕ × ℕ)
  | st, _, 0 => st.toList
  | st, y, n + 1 =>
    if p y then
      if st.isSome && cross (y - 1) then
        st.toList ++ horizRunsAux p cross (some (y, y)) (y + 1) n
      else
        horizRunsAux p cross (some ((st.getD (y, y)).1, y)) (y + 1) n
    else
      st.toList ++ horizRunsAux p cross none (y + 1) n

/-- Step 2 of the plugin: group consecutive vertical separation lines for
every internal column boundary `y = 0 .. cols-2`. -/
def verticalSegments (g : Grid) (cols : ℕ) : List VSeg :=
  (List.range (cols - 1)).flatMap (fun y =>
    (vertRunsAux (fun x => isRightFrontier g x y) none 0 g.length).map
      (fun ab => ⟨y, ab.1, ab.2⟩))

/-- Step 3 of the plugin: group consecutive horizontal separation lines that
do not cross vertical separation lines, for every row boundary
`x = 0 .. grid.length-2`. -/
def horizontalSegments (g : Grid) (cols : ℕ) : List HSeg :=
  (List.range (g.length - 1)).flatMap (fun x =>
    (horizRunsAux (fun y => isTopFrontier g x y)
        (fun c => isRightFrontier g x c && isRightFrontier g (x + 1) c) none 0 cols).map
      (fun ab => ⟨x, ab.1, ab.2⟩))

/-- The output of one layout computation: element records, separator
segments, the number of grid rows, and (for stating theorems about the
occupancy) the final virtual grid. -/
structure LayoutResult where
  placements : List Placement
  vsegs : List VSeg
  hsegs : List HSeg
  totalRows : ℕ
  grid : Grid
deriving Repr

/-- The whole production layout computation: the empty-selection early
return, the packing loop, the normalizer and the two line-extraction
passes. -/
def layoutP000 (sh : ℕ → List Size → List Size) (cols : ℕ) (sizes0 : List Size)
    (startsWith : List (Option Size)) (classSizes0 : List (String × List Size))
    (items : List (List String)) : LayoutResult :=
  match items with
  | [] => ⟨[], [], [], 0, []⟩
  | _ :: _ =>
    let st := packList sh cols items.length startsWith items 0 ⟨[], sizes0, classSizes0, 0, []⟩
    let np := normalizeGrid cols st.grid st.placements
    ⟨np.2, verticalSegments np.1 cols, horizontalSegments np.1 cols, np.1.length, np.1⟩

/-- Membership of a cell in the rectangle currently declared by a placement
record. -/
def inRect (p : Placement) (i j : ℕ) : Prop :=
  p.pos.1 ≤ i ∧ (i : ℤ) < (p.pos.1 : ℤ) + p.rows ∧ p.pos.2 ≤ j ∧ (j : ℤ) < (p.pos.2 : ℤ) + p.cols

instance (p : Placement) (i j : ℕ) : Decidable (inRect p i j) := by
  unfold inRect; infer_instance

/-- Row-major (strict) order on grid positions. -/
def rmLt (a b : ℕ × ℕ) : Prop :=
  a.1 < b.1 ∨ (a.1 = b.1 ∧ a.2 < b.2)

instance (a b : ℕ × ℕ) : Decidable (rmLt a b) := by
  unfold rmLt; infer_instance

/-! ## The scanning variant `src/js/grid.js` -/

/-- An element of the scanning variant, with sizes read from the markup
(`data-rows` / `data-cols`). -/
structure JsElement where
  rows : ℕ
  cols : ℕ
deriving DecidableEq, Repr

/-- `isAllocable(element, pos)` of the scanning variant (occupancy is the
truthiness of `grid[i][j]`; ids start at 1, so truthy means occupied). -/
def isAllocableJs (g : Grid) (cols : ℕ) (el : JsElement) (pos : ℕ × ℕ) : Bool :=
  if (pos.2 : ℤ) + el.cols - 1 ≥ (cols : ℤ) then false
  else (List.range el.rows).all (fun di =>
    (List.range el.cols).all (fun dj => !(cellG g (pos.1 + di) (pos.2 + dj)).isSome))

/-- One advance of the position-scanning loop: jump a column, or wrap to
the start of the next line. -/
def stepPosJs (cols : ℕ) (pos : ℕ × ℕ) : ℕ × ℕ :=
  if pos.2 < cols then (pos.1, pos.2 + 1) else (pos.1 + 1, 0)

/-- The `while (!isAllocable(element, pos))` scanning loop, with explicit
fuel standing in for the unbounded iteration of the source (theorem `C10`
settles when fuel suffices). -/
def findFitAux (g : Grid) (cols : ℕ) (el : JsElement) : ℕ → ℕ × ℕ → Option (ℕ × ℕ)
  | 0, _ => none
  | fuel + 1, pos =>
    if isAllocableJs g cols el pos then some pos
    else findFitAux g cols el fuel (stepPosJs cols pos)

/-- The packing loop of the scanning variant: each element starts its scan
at `[0, 0]`, is assigned the id `++id`, and is marked on the grid at the
first allocable position; `none` when the scanning loop would not
terminate. -/
def packJsAux (cols : ℕ) : List JsElement → ℕ → Grid → List Placement →
    Option (List Placement × Grid)
  | [], _, g, pls => some (pls, g)
  | el :: rest, id, g, pls =>
    match findFitAux g cols el ((g.length + el.rows + 1) * (cols + 2)) (0, 0) with
    | none => none
    | some pos =>
      packJsAux cols rest (id + 1) (markElement g pos.1 pos.2 (id + 1) el.cols el.rows)
        (pls ++ [⟨id + 1, pos, (el.rows : ℤ), (el.cols : ℤ)⟩])

/-- Crossing of a horizontal and a vertical separator at a shared interior
point.  With box side `s` and gap `d` (twice the spacing plus the line
thickness), the horizontal line on row boundary `x` spans pixels
`[colStart*(s+d), colEnd*(s+d)+s]` at height `x*(s+d)+s+spacing`, and the
vertical line on column boundary `y` spans `[rowStart*(s+d), rowEnd*(s+d)+s]`
horizontally at `y*(s+d)+s+spacing`; the two intervals share a point
exactly when `colStart ≤ y < colEnd` and `rowStart ≤ x < rowEnd`. -/
def crosses (h : HSeg) (v : VSeg) : Prop :=
  h.colStart ≤ v.col ∧ v.col < h.colEnd ∧ v.rowStart ≤ h.row ∧ h.row < v.rowEnd

instance (h : HSeg) (v : VSeg) : Decidable (crosses h v) := by
  unfold crosses; infer_instance

/-- Verification predicate (not a source function): invariant of the
packing loop.  Ids equal positions in the placement list; every placement
is at least one column wide, within the column bound, and at least one row
tall; the grid holds the placement id on its whole rectangle; every
occupied cell belongs to the rectangle of its recorded id; and every
placement's top-left corner is row-major before the current first empty
cell. -/
def packInv (cols : ℕ) (g : Grid) (pls : List Placement) : Prop :=
  (∀ m p, pls.get? m = some p → p.id = m) ∧
  (∀ m p, pls.get? m = some p → 1 ≤ p.rows ∧ 1 ≤ p.cols ∧ (p.pos.2 : ℤ) + p.cols ≤ (cols : ℤ)) ∧
  (∀ m p, pls.get? m = some p → ∀ i j, inRect p i j → cellG g i j = some p.id) ∧
  (∀ i j id, cellG g i j = some id → ∃ p, pls.get? id = some p ∧ inRect p i j) ∧
  (∀ m p, pls.get? m = some p → rmLt p.pos (firstEmptySpace g cols))

/-- Verification predicate (not a source function): invariant carried
through the shrink passes of the normalizer, relative to the captured data
of the last element (which sits as a `1 x 1` rectangle at
`(rstar, cstar)`); `n` is the number of placed elements. -/
def layoutInv (cols n rstar cstar : ℕ) (g : Grid) (pls : List Placement) : Prop :=
  (∀ m p, pls.get? m = some p → p.id = m) ∧
  (∀ m p, pls.get? m = some p → 1 ≤ p.cols ∧ (p.pos.2 : ℤ) + p.cols ≤ (cols : ℤ)) ∧
  (∀ m p, pls.get? m = some p → ∀ i j, inRect p i j → cellG g i j = some p.id) ∧
  (∀ i j id, cellG g i j = some id → ∃ p, pls.get? id = some p ∧ inRect p i j) ∧
  (∀ i j, j < cols → rmLt (i, j) (rstar, cstar) → cellG g i j ≠ none) ∧
  cellG g rstar cstar = some (n - 1) ∧
  pls.get? (n - 1) = some ⟨n - 1, (rstar, cstar), 1, 1⟩ ∧
  pls.length = n

/-! ## Basic lemmas about the grid operations -/

theorem getElem?_append_replicate (l : List α) (a : α) (m k : ℕ) :
    (l ++ List.replicate m a)[k]? =
      if k < l.length then l[k]? else if k < l.length + m then some a else none := by
  rcases Nat.lt_or_ge k l.length with h | h
  · rw [List.getElem?_append_left h, if_pos h]
  · rw [List.getElem?_append_right h, if_neg (by omega), List.getElem?_replicate]
    by_cases h2 : k < l.length + m
    · rw [if_pos (by omega), if_pos h2]
    · rw [if_neg (by omega), if_neg h2]

theorem cellG_out {g : Grid} {i : ℕ} (h : g.length ≤ i) (j : ℕ) : cellG g i j = none := by
  unfold cellG
  rw [List.getD_eq_getElem?_getD g i [], List.getElem?_eq_none h]
  rfl

theorem length_padTo (g : Grid) (n : ℕ) : (padTo g n).length = max g.length n := by
  simp [padTo]
  omega

theorem getD_padTo (g : Grid) (n i : ℕ) : (padTo g n).getD i [] = g.getD i [] := by
  unfold padTo
  rw [List.getD_eq_getElem?_getD, List.getD_eq_getElem?_getD, getElem?_append_replicate]
  rcases Nat.lt_or_ge i g.length with h | h
  · rw [if_pos h]
  · rw [if_neg (by omega), List.getElem?_eq_none h]
    by_cases h2 : i < g.length + (n - g.length) <;> simp [h2]

theorem cellG_padTo (g : Grid) (n i j : ℕ) : cellG (padTo g n) i j = cellG g i j := by
  unfold cellG
  rw [getD_padTo]

theorem length_setInRow (row : Row) (j : ℕ) (v : Option ℕ) :
    (setInRow row j v).length = max row.length (j + 1) := by
  simp [setInRow]
  omega

theorem getD_setInRow (row : Row) (j : ℕ) (v : Option ℕ) (j' : ℕ) :
    (setInRow row j v).getD j' none = if j' = j then v else row.getD j' none := by
  unfold setInRow
  rw [List.getD_eq_getElem?_getD row j' none, List.getD_eq_getElem?_getD, List.getElem?_set,
    getElem?_append_replicate]
  rcases eq_or_ne j' j with h | h
  · subst h
    rw [if_pos rfl]
    by_cases h2 : j' < row.length
    · rw [if_pos (by simp [List.length_append, List.length_replicate]; omega)]; simp
    · rw [if_pos (by simp [List.length_append, List.length_replicate]; omega)]; simp
  · rw [if_neg (Ne.symm h), if_neg h]
    rcases Nat.lt_or_ge j' row.length with h2 | h2
    · rw [if_pos h2]
    · rw [if_neg (by omega), List.getElem?_eq_none h2]
      by_cases h3 : j' < row.length + (j + 1 - row.length) <;> simp [h3]

theorem length_modifyRow (g : Grid) (i : ℕ) (f : Row → Row) :
    (modifyRow g i f).length = g.length := by
  unfold modifyRow
  cases h : g.get? i <;> simp [List.length_set]

theorem getD_modifyRow_self {g : Grid} {i : ℕ} (f : Row → Row) (h : i < g.length) :
    (modifyRow g i f).getD i [] = f (g.getD i []) := by
  unfold modifyRow
  rw [List.get?_eq_getElem?, List.getElem?_eq_getElem h]
  rw [List.getD_eq_getElem?_getD, List.getElem?_set_self (by simpa using h),
    List.getD_eq_getElem?_getD, List.getElem?_eq_getElem h]
  rfl

theorem getD_modifyRow_ne {g : Grid} {i i' : ℕ} (f : Row → Row) (h : i' ≠ i) :
    (modifyRow g i f).getD i' [] = g.getD i' [] := by
  unfold modifyRow
  cases h2 : g.get? i
  · rfl
  · rw [List.getD_eq_getElem?_getD, List.getD_eq_getElem?_getD,
      List.getElem?_set_ne (Ne.symm h)]

theorem getD_markRow (row : Row) (j0 id : ℕ) (w : ℕ) (j : ℕ) :
    (markRow row j0 id w).getD j none =
      if j0 ≤ j ∧ j < j0 + w then some id else row.getD j none := by
  induction w generalizing row j0 with
  | zero =>
    rw [markRow, if_neg (by omega)]
  | succ w ih =>
    rw [markRow, ih, getD_setInRow]
    by_cases h1 : j0 + 1 ≤ j ∧ j < j0 + 1 + w
    · rw [if_pos h1, if_pos (by omega)]
    · rw [if_neg h1]
      by_cases h2 : j = j0
      · rw [if_pos h2, if_pos (by omega)]
      · rw [if_neg h2, if_neg (by omega)]

theorem cellG_markElement (g : Grid) (i0 j0 id w : ℕ) (r : ℕ) (i j : ℕ) :
    cellG (markElement g i0 j0 id w r) i j =
      if i0 ≤ i ∧ i < i0 + r ∧ j0 ≤ j ∧ j < j0 + w then some id else cellG g i j := by
  induction r generalizing g i0 with
  | zero =>
    rw [markElement, if_neg (by omega)]
  | succ r ih =>
    rw [markElement, ih]
    by_cases h1 : i0 + 1 ≤ i ∧ i < i0 + 1 + r ∧ j0 ≤ j ∧ j < j0 + w
    · rw [if_pos h1, if_pos (by omega)]
    · rw [if_neg h1]
      by_cases h2 : i = i0
      · subst h2
        have hlen : i < (padTo g (i + 1)).length := by
          rw [length_padTo]; omega
        unfold cellG
        rw [getD_modifyRow_self _ hlen, getD_markRow, getD_padTo]
        by_cases h3 : j0 ≤ j ∧ j < j0 + w
        · rw [if_pos h3, if_pos (by omega)]
        · rw [if_neg h3, if_neg (by omega)]
      · rw [if_neg (by omega)]
        unfold cellG
        rw [getD_modifyRow_ne _ h2, getD_padTo]

theorem length_markElement_pos (g : Grid) (i0 j0 id w : ℕ) {r : ℕ} (hr : 0 < r) :
    (markElement g i0 j0 id w r).length = max g.length (i0 + r) := by
  induction r generalizing g i0 with
  | zero => omega
  | succ r ih =>
    rw [markElement]
    rcases Nat.eq_zero_or_pos r with h | h
    · subst h
      rw [markElement, length_modifyRow, length_padTo]
    · rw [ih _ _ h, length_modifyRow, length_padTo]
      omega

theorem length_markElement_le (g : Grid) (i0 j0 id w r : ℕ) :
    g.length ≤ (markElement g i0 j0 id w r).length := by
  rcases Nat.eq_zero_or_pos r with h | h
  · subst h; exact Nat.le_refl _
  · rw [length_markElement_pos g i0 j0 id w h]; omega

theorem length_writeCellZ (g : Grid) (a b : ℤ) (v : Option ℕ) :
    (writeCellZ g a b v).length = g.length := by
  unfold writeCellZ
  split
  · rw [length_modifyRow]
  · rfl

theorem cellG_writeCellZ (g : Grid) (a b : ℤ) (v : Option ℕ) (i j : ℕ) :
    cellG (writeCellZ g a b v) i j =
      if (i : ℤ) = a ∧ (j : ℤ) = b ∧ i < g.length then v else cellG g i j := by
  unfold writeCellZ
  by_cases hab : 0 ≤ a ∧ 0 ≤ b
  · rw [if_pos hab]
    by_cases hi : i = a.toNat
    · subst hi
      by_cases hlen : (a.toNat : ℕ) < g.length
      · unfold cellG
        rw [getD_modifyRow_self _ hlen, getD_setInRow]
        by_cases hj : j = b.toNat
        · rw [if_pos hj, if_pos (by omega)]
        · rw [if_neg hj, if_neg (by omega)]
      · unfold modifyRow
        rw [List.get?_eq_getElem?, List.getElem?_eq_none (by omega)]
        rw [if_neg (by omega)]
    · unfold cellG
      rw [getD_modifyRow_ne _ hi, if_neg (by omega)]
  · rw [if_neg hab, if_neg (by omega)]

theorem length_writeRowFold (g : Grid) (a : ℤ) (cjs : List ℤ) (v : Option ℕ) :
    (cjs.foldl (fun g'' j => writeCellZ g'' a j v) g).length = g.length := by
  induction cjs generalizing g with
  | nil => rfl
  | cons c rest ih => rw [List.foldl_cons, ih, length_writeCellZ]

theorem cellG_writeRowFold (g : Grid) (a : ℤ) (cjs : List ℤ) (v : Option ℕ) (i j : ℕ) :
    cellG (cjs.foldl (fun g'' jj => writeCellZ g'' a jj v) g) i j =
      if (i : ℤ) = a ∧ (j : ℤ) ∈ cjs ∧ i < g.length then v else cellG g i j := by
  induction cjs generalizing g with
  | nil => simp
  | cons c rest ih =>
    rw [List.foldl_cons, ih, length_writeCellZ, cellG_writeCellZ]
    by_cases h1 : (i : ℤ) = a ∧ (j : ℤ) ∈ rest ∧ i < g.length
    · rw [if_pos h1, if_pos ⟨h1.1, by simp [h1.2.1], h1.2.2⟩]
    · rw [if_neg h1]
      by_cases h2 : (i : ℤ) = a ∧ (j : ℤ) = c ∧ i < g.length
      · rw [if_pos h2, if_pos ⟨h2.1, by simp [h2.2.1], h2.2.2⟩]
      · rw [if_neg h2, if_neg (by
          rintro ⟨ha, hm, hl⟩
          rcases List.mem_cons.1 hm with h | h
          · exact h2 ⟨ha, h, hl⟩
          · exact h1 ⟨ha, h, hl⟩)]

theorem length_writeCells (g : Grid) (ris cjs : List ℤ) (v : Option ℕ) :
    (writeCells g ris cjs v).length = g.length := by
  unfold writeCells
  induction ris generalizing g with
  | nil => rfl
  | cons r rest ih => rw [List.foldl_cons, ih, length_writeRowFold]

theorem cellG_writeCells (g : Grid) (ris cjs : List ℤ) (v : Option ℕ) (i j : ℕ) :
    cellG (writeCells g ris cjs v) i j =
      if (i : ℤ) ∈ ris ∧ (j : ℤ) ∈ cjs ∧ i < g.length then v else cellG g i j := by
  unfold writeCells
  induction ris generalizing g with
  | nil => simp
  | cons r rest ih =>
    rw [List.foldl_cons, ih, length_writeRowFold, cellG_writeRowFold]
    by_cases h1 : (i : ℤ) ∈ rest ∧ (j : ℤ) ∈ cjs ∧ i < g.length
    · rw [if_pos h1, if_pos ⟨by simp [h1.1], h1.2⟩]
    · rw [if_neg h1]
      by_cases h2 : (i : ℤ) = r ∧ (j : ℤ) ∈ cjs ∧ i < g.length
      · rw [if_pos h2, if_pos ⟨by simp [h2.1], h2.2⟩]
      · rw [if_neg h2, if_neg (by
          rintro ⟨hm, hj, hl⟩
          rcases List.mem_cons.1 hm with h | h
          · exact h2 ⟨h, hj, hl⟩
          · exact h1 ⟨h, hj, hl⟩)]

theorem mem_intRangeAux {a x : ℤ} {n : ℕ} : x ∈ intRangeAux a n ↔ a ≤ x ∧ x < a + n := by
  induction n generalizing a with
  | zero => simp [intRangeAux]
  | succ n ih =>
    rw [intRangeAux, List.mem_cons, ih]
    omega

theorem mem_intRange {a b x : ℤ} : x ∈ intRange a b ↔ a ≤ x ∧ x < b := by
  rw [intRange, mem_intRangeAux]
  omega

theorem cellG_take {g : Grid} {n i : ℕ} (h : i < n) (j : ℕ) :
    cellG (g.take n) i j = cellG g i j := by
  unfold cellG
  rw [List.getD_eq_getElem?_getD (g.take n) i [], List.getD_eq_getElem?_getD g i [],
    List.getElem?_take, if_pos h]

/-! ## Specification of `firstEmptySpace` -/

theorem rowFEAux_some {row : Row} {rem j0 j : ℕ} (h : rowFEAux row rem j0 = some j) :
    j0 ≤ j ∧ j < j0 + rem ∧ row.getD j none = none ∧
      ∀ j', j0 ≤ j' → j' < j → row.getD j' none ≠ none := by
  induction rem generalizing j0 with
  | zero => simp [rowFEAux] at h
  | succ rem ih =>
    rw [rowFEAux] at h
    by_cases h0 : row.getD j0 none = none
    · rw [if_pos h0] at h
      cases h
      exact ⟨Nat.le_refl _, by omega, h0, fun j' h1 h2 => by omega⟩
    · rw [if_neg h0] at h
      rcases ih h with ⟨h1, h2, h3, h4⟩
      refine ⟨by omega, by omega, h3, fun j' h5 h6 => ?_⟩
      rcases Nat.eq_or_lt_of_le h5 with h7 | h7
      · rw [← h7]; exact h0
      · exact h4 j' h7 h6

theorem rowFEAux_none {row : Row} {rem j0 : ℕ} (h : rowFEAux row rem j0 = none) :
    ∀ j', j0 ≤ j' → j' < j0 + rem → row.getD j' none ≠ none := by
  induction rem generalizing j0 with
  | zero => omega
  | succ rem ih =>
    rw [rowFEAux] at h
    by_cases h0 : row.getD j0 none = none
    · rw [if_pos h0] at h
      cases h
    · rw [if_neg h0] at h
      intro j' h1 h2
      rcases Nat.eq_or_lt_of_le h1 with h3 | h3
      · rw [← h3]; exact h0
      · exact ih h j' h3 (by omega)

theorem feAux_spec (cols : ℕ) (rs : List Row) (i0 : ℕ) :
    (feAux cols rs i0 = (i0 + rs.length, 0) ∧
      ∀ d, d < rs.length → ∀ j, j < cols → (rs.getD d []).getD j none ≠ none) ∨
    (∃ d j, d < rs.length ∧ j < cols ∧ feAux cols rs i0 = (i0 + d, j) ∧
      (rs.getD d []).getD j none = none ∧
      (∀ d', d' < d → ∀ j', j' < cols → (rs.getD d' []).getD j' none ≠ none) ∧
      (∀ j', j' < j → (rs.getD d []).getD j' none ≠ none)) := by
  induction rs generalizing i0 with
  | nil =>
    left
    constructor
    · rfl
    · intro d hd
      simp at hd
  | cons r rest ih =>
    cases hr : rowFirstEmpty r cols with
    | some j =>
      rcases rowFEAux_some hr with ⟨_, h2, h3, h4⟩
      right
      refine ⟨0, j, by simp, by omega, ?_, ?_, ?_, ?_⟩
      · simp [feAux, hr]
      · simpa using h3
      · intro d' hd'; omega
      · intro j' hj'
        simpa using h4 j' (by omega) hj'
    | none =>
      have hrow := rowFEAux_none hr
      rcases ih (i0 + 1) with ⟨h1, h2⟩ | ⟨d, j, h1, h2, h3, h4, h5, h6⟩
      · left
        constructor
        · simp only [feAux, hr, h1, List.length_cons, Prod.mk.injEq, and_true]
          omega
        · intro d hd j hj
          cases d with
          | zero => exact hrow j (by omega) (by omega)
          | succ d2 => exact h2 d2 (by simpa using hd) j hj
      · right
        refine ⟨d + 1, j, by simpa using h1, h2, ?_, by simpa using h4, ?_, by simpa using h6⟩
        · simp only [feAux, hr, h3, Prod.mk.injEq, and_true]
          omega
        · intro d' hd' j' hj'
          cases d' with
          | zero => exact hrow j' (by omega) (by omega)
          | succ d2 => exact h5 d2 (by omega) j' hj'

theorem firstEmptySpace_spec (g : Grid) (cols : ℕ) :
    (firstEmptySpace g cols = (g.length, 0) ∧
      ∀ i, i < g.length → ∀ j, j < cols → cellG g i j ≠ none) ∨
    ((firstEmptySpace g cols).1 < g.length ∧ (firstEmptySpace g cols).2 < cols ∧
      cellG g (firstEmptySpace g cols).1 (firstEmptySpace g cols).2 = none ∧
      ∀ i j, j < cols → rmLt (i, j) (firstEmptySpace g cols) → cellG g i j ≠ none) := by
  rcases feAux_spec cols g 0 with ⟨h1, h2⟩ | ⟨d, j, h1, h2, h3, h4, h5, h6⟩
  · left
    constructor
    · rw [firstEmptySpace, h1]
      simp
    · intro i hi jj hj
      exact h2 i hi jj hj
  · right
    have hfe : firstEmptySpace g cols = (d, j) := by
      rw [firstEmptySpace, h3]
      simp
    rw [hfe]
    refine ⟨h1, h2, h4, ?_⟩
    intro i jj hj hlt
    rcases hlt with hlt | ⟨heq, hlt⟩
    · exact h5 i hlt jj hj
    · simp only at heq
      rw [heq]
      exact h6 jj hlt

/-! ## Specification of `isAllocable` and `getRandomSize` -/

theorem isAllocable_iff {g : Grid} {cols : ℕ} {size : Size} {pos : ℕ × ℕ} :
    isAllocable g cols size pos = true ↔
      ((pos.2 : ℤ) + size.2 - 1 < (cols : ℤ) ∧
        ∀ di, di < size.1 → ∀ dj, dj < size.2 → cellG g (pos.1 + di) (pos.2 + dj) = none) := by
  unfold isAllocable
  by_cases h : (pos.2 : ℤ) + size.2 - 1 ≥ (cols : ℤ)
  · rw [if_pos h]
    simp only [Bool.false_eq_true, false_iff]
    rintro ⟨h1, _⟩
    omega
  · rw [if_neg h]
    simp only [List.all_eq_true, List.mem_range]
    constructor
    · intro hall
      refine ⟨by omega, ?_⟩
      intro di hdi dj hdj
      have h2 := hall di hdi dj hdj
      simpa using h2
    · rintro ⟨_, hcells⟩
      intro di hdi dj hdj
      simpa using hcells di hdi dj hdj

theorem if_isAllocable_one (g : Grid) (cols : ℕ) (pos : ℕ × ℕ) (hc : pos.2 < cols)
    (hcell : cellG g pos.1 pos.2 = none) : isAllocable g cols (1, 1) pos = true := by
  rw [isAllocable_iff]
  constructor
  · show (pos.2 : ℤ) + (1 : ℕ) - 1 < (cols : ℤ)
    omega
  · intro di hdi dj hdj
    have hdi2 : di = 0 := by omega
    have hdj2 : dj = 0 := by omega
    subst hdi2
    subst hdj2
    simpa using hcell

theorem getRandomSize_cases (sh1 : List Size → List Size) (g : Grid) (cols : ℕ)
    (pos : ℕ × ℕ) (remaining : ℕ) (sizes : List Size) :
    (getRandomSize sh1 g cols pos remaining sizes).1 = (1, 1) ∨
      ((getRandomSize sh1 g cols pos remaining sizes).1 ∈ sh1 sizes ∧
        isAllocable g cols (getRandomSize sh1 g cols pos remaining sizes).1 pos = true) := by
  unfold getRandomSize
  by_cases h : remaining = 1
  · rw [if_pos h]
    left
    rfl
  · rw [if_neg h]
    cases hf : (sh1 sizes).find? (fun sz => isAllocable g cols sz pos) with
    | none => left; rfl
    | some sz =>
      right
      show sz ∈ sh1 sizes ∧ isAllocable g cols sz pos = true
      have h2 := List.find?_some hf
      exact ⟨List.mem_of_find?_eq_some hf, h2⟩

theorem getRandomSize_snd (sh1 : List Size → List Size) (g : Grid) (cols : ℕ)
    (pos : ℕ × ℕ) (remaining : ℕ) (sizes : List Size) :
    (getRandomSize sh1 g cols pos remaining sizes).2 = sh1 sizes := by
  unfold getRandomSize
  by_cases h : remaining = 1
  · rw [if_pos h]
  · rw [if_neg h]
    cases hf : (sh1 sizes).find? (fun sz => isAllocable g cols sz pos) <;> simp [hf]

/-! ## Claim C7: specification of `firstEmptySpace` -/

/-- C7: `firstEmptySpace` returns the row-major first empty cell of the
grid (smallest row, then smallest column below `cols`, with every
row-major-earlier cell occupied); when every cell of every materialized row
is occupied it returns `(grid.length, 0)`. -/
theorem claim_C7_firstEmptySpace (g : Grid) (cols : ℕ) :
    ((firstEmptySpace g cols).1 < g.length ∧ (firstEmptySpace g cols).2 < cols ∧
      cellG g (firstEmptySpace g cols).1 (firstEmptySpace g cols).2 = none ∧
      (∀ i j, j < cols → rmLt (i, j) (firstEmptySpace g cols) → cellG g i j ≠ none)) ∨
    (firstEmptySpace g cols = (g.length, 0) ∧
      ∀ i, i < g.length → ∀ j, j < cols → cellG g i j ≠ none) := by
  rcases firstEmptySpace_spec g cols with h | h
  · right; exact h
  · left; exact h

/-! ## Claim C8: zero items -/

/-- C8: with zero input items the layout returns without error: no
placements, no vertical or horizontal segments, and zero total rows. -/
theorem claim_C8_zero_items (sh : ℕ → List Size → List Size) (cols : ℕ)
    (sizes0 : List Size) (startsWith : List (Option Size))
    (classSizes0 : List (String × List Size)) :
    layoutP000 sh cols sizes0 startsWith classSizes0 [] =
      ⟨[], [], [], 0, []⟩ := rfl

/-! ## Claim C2: Scenario A on the two packers -/

/-- C2 (code bug): on Scenario A (4 columns, sizes (1,1), (1,2), (1,3),
(2,1) in insertion order), the scanning variant of `src/js/grid.js`
produces exactly the placements the claim states, with 2 total rows; the
production variant of the plugin instead commits item 3 (id 2) to the first
empty cell (0,3) where its width 3 does not fit, marking columns 4 and 5
beyond the bound, and ends with 3 total rows, contradicting its own header
documentation. -/
theorem claim_C2_scenarioA :
    (packJsAux 4 [⟨1, 1⟩, ⟨1, 2⟩, ⟨1, 3⟩, ⟨2, 1⟩] 0 [] [] =
      some ([⟨1, (0, 0), 1, 1⟩, ⟨2, (0, 1), 1, 2⟩, ⟨3, (1, 0), 1, 3⟩, ⟨4, (0, 3), 2, 1⟩],
        [[some 1, some 2, some 2, some 4], [some 3, some 3, some 3, some 4]])) ∧
    ((layoutP000 shZero 4 [(1, 1)] [some (1, 1), some (1, 2), some (1, 3), some (2, 1)] []
        [[], [], [], []]).placements =
      [⟨0, (0, 0), 1, 1⟩, ⟨1, (0, 1), 1, 2⟩, ⟨2, (0, 3), 1, 3⟩, ⟨3, (1, 0), 2, 4⟩]) ∧
    ((layoutP000 shZero 4 [(1, 1)] [some (1, 1), some (1, 2), some (1, 3), some (2, 1)] []
        [[], [], [], []]).totalRows = 3) ∧
    (cellG (layoutP000 shZero 4 [(1, 1)] [some (1, 1), some (1, 2), some (1, 3), some (2, 1)] []
        [[], [], [], []]).grid 0 4 = some 2) := by
  decide

/-! ## Counterexample for claim C1 -/

/-- C1 is false as stated: with `totalCols = 2`, two items (all sizes at
least 1x1) and the per-index override `(2, 1)` pinned for the second
(last) item, the normalized grid has 2 total rows but the cell `(1, 0)` of
the region `[0, 2) x [0, 2)` is empty. -/
theorem claim_C1_cex :
    (layoutP000 shZero 2 [(1, 1)] [none, some (2, 1)] [] [[], []]).totalRows = 2 ∧
      cellG (layoutP000 shZero 2 [(1, 1)] [none, some (2, 1)] [] [[], []]).grid 1 0 = none := by
  decide

/-! ## Claim C3: override resolution -/

/-- C3 is false as stated: a size pinned by `startsWith` for the item's
index is replaced by the `classSizes` reselection when the item has a class
whose pool does not contain the pinned size.  Here the pinned size `(2, 2)`
is replaced by `(1, 1)` from the class pool. -/
theorem claim_C3_cex :
    (resolveSize shZero [] 3 (0, 0) 2 0 [(1, 1)] [some (2, 2)] [("a", [(1, 1)])] ["a"] 0).size =
        (1, 1) ∧
      ((2, 2) : Size) ≠ (1, 1) := by
  decide

/-! ## Counterexample for claim C4 -/

/-- C4 is false as stated: an explicit override wider than `totalCols`
(here `(1, 3)` with 2 columns) raises no error: the layout returns the full
placement list with the unclipped width 3, and the grid is marked at column
2, beyond the 2-column bound. -/
theorem claim_C4_cex :
    (layoutP000 shZero 2 [(1, 1)] [some (1, 3)] [] [[]]).placements = [⟨0, (0, 0), 1, 3⟩] ∧
      (layoutP000 shZero 2 [(1, 1)] [some (1, 3)] [] [[]]).totalRows = 1 ∧
      cellG (layoutP000 shZero 2 [(1, 1)] [some (1, 3)] [] [[]]).grid 0 2 = some 0 := by
  decide

/-! ## Claim C3 (amended): a pinned size survives when every matched class
pool contains it -/

theorem classSizesLoop_fst_of_contains (sh : ℕ → List Size → List Size) (g : Grid)
    (cols : ℕ) (pos : ℕ × ℕ) (remaining : ℕ) (classes : List String)
    (entries : List (String × List Size)) (sz : Size) (ridx : ℕ)
    (h : ∀ e ∈ entries, classes.contains e.1 = true → e.2.contains sz = true) :
    (classSizesLoop sh g cols pos remaining classes entries sz ridx).1 = sz := by
  induction entries generalizing ridx with
  | nil => rfl
  | cons e rest ih =>
    obtain ⟨key, pool⟩ := e
    rw [classSizesLoop]
    by_cases hk : classes.contains key = true
    · have hp := h (key, pool) (by simp) hk
      rw [hk, hp]
      show (classSizesLoop sh g cols pos remaining classes rest sz ridx).1 = sz
      exact ih _ (fun e he hce => h e (by simp [he]) hce)
    · rw [Bool.eq_false_iff.2 hk]
      show (classSizesLoop sh g cols pos remaining classes rest sz ridx).1 = sz
      exact ih _ (fun e he hce => h e (by simp [he]) hce)

/-- C3 (amended): a size pinned by `startsWith` for the item's insertion
index overrides the pool-based selection, and it is the final size whenever
every class pool of a class the item carries contains the pinned size; the
`classSizes` reselection replaces even a pinned size otherwise (see the
counterexample). -/
theorem claim_C3_amended (sh : ℕ → List Size → List Size) (g : Grid) (cols : ℕ)
    (pos : ℕ × ℕ) (remaining k : ℕ) (sizes : List Size) (startsWith : List (Option Size))
    (classSizes : List (String × List Size)) (classes : List String) (ridx : ℕ) (sz : Size)
    (hpin : startsWith.getD k none = some sz)
    (hcs : ∀ e ∈ classSizes, classes.contains e.1 = true → e.2.contains sz = true) :
    (resolveSize sh g cols pos remaining k sizes startsWith classSizes classes ridx).size = sz := by
  unfold resolveSize
  rw [hpin]
  exact classSizesLoop_fst_of_contains sh g cols pos remaining classes classSizes sz (ridx + 1) hcs

theorem claim_C3_amended_witness :
    (resolveSize shZero [] 3 (0, 0) 2 0 [(1, 1)] [some (2, 2)] [("a", [(2, 2), (1, 1)])]
      ["a"] 0).size = (2, 2) :=
  claim_C3_amended shZero [] 3 (0, 0) 2 0 [(1, 1)] [some (2, 2)] [("a", [(2, 2), (1, 1)])]
    ["a"] 0 (2, 2) (by decide) (by decide)

/-! ## Claim C6: the size selector -/

theorem find?_first_spec {p : α → Bool} {l : List α} {a : α} (h : l.find? p = some a) :
    ∃ k, ∃ hk : k < l.length, l.get ⟨k, hk⟩ = a ∧ p a = true ∧
      ∀ b ∈ l.take k, p b = false := by
  induction l with
  | nil => simp at h
  | cons x xs ih =>
    rw [List.find?_cons] at h
    cases hp : p x with
    | true =>
      rw [hp] at h
      cases h
      exact ⟨0, by simp, rfl, hp, by simp⟩
    | false =>
      rw [hp] at h
      rcases ih h with ⟨k, hk, hget, hpa, htake⟩
      refine ⟨k + 1, by simpa using hk, by simpa using hget, hpa, ?_⟩
      intro b hb
      rw [List.take_succ_cons] at hb
      rcases List.mem_cons.1 hb with hb | hb
      · rw [hb]; exact hp
      · exact htake b hb

/-- C6: `getRandomSize` returns `(1, 1)` whenever exactly one element
remains, regardless of the pool; otherwise it returns the first entry of
the shuffled pool that is allocable at the position, and `(1, 1)` when no
entry of the shuffled pool is allocable there. -/
theorem claim_C6_getRandomSize (sh1 : List Size → List Size) (g : Grid) (cols : ℕ)
    (pos : ℕ × ℕ) (remaining : ℕ) (sizes : List Size) :
    (remaining = 1 → (getRandomSize sh1 g cols pos remaining sizes).1 = (1, 1)) ∧
    (remaining ≠ 1 → (∃ sz ∈ sh1 sizes, isAllocable g cols sz pos = true) →
      ∃ k, ∃ hk : k < (sh1 sizes).length,
        (sh1 sizes).get ⟨k, hk⟩ = (getRandomSize sh1 g cols pos remaining sizes).1 ∧
        isAllocable g cols (getRandomSize sh1 g cols pos remaining sizes).1 pos = true ∧
        ∀ b ∈ (sh1 sizes).take k, isAllocable g cols b pos = false) ∧
    (remaining ≠ 1 → (∀ sz ∈ sh1 sizes, isAllocable g cols sz pos = false) →
      (getRandomSize sh1 g cols pos remaining sizes).1 = (1, 1)) := by
  refine ⟨?_, ?_, ?_⟩
  · intro h1
    unfold getRandomSize
    rw [if_pos h1]
  · intro h1 h2
    unfold getRandomSize
    rw [if_neg h1]
    have hsome : ((sh1 sizes).find? (fun sz => isAllocable g cols sz pos)).isSome = true :=
      List.find?_isSome.2 h2
    cases hf : (sh1 sizes).find? (fun sz => isAllocable g cols sz pos) with
    | none => rw [hf] at hsome; cases hsome
    | some sz =>
      rcases find?_first_spec hf with ⟨k, hk, hget, hpa, htake⟩
      exact ⟨k, hk, hget, hpa, htake⟩
  · intro h1 h2
    unfold getRandomSize
    rw [if_neg h1]
    rw [List.find?_eq_none.2 (fun x hx => by rw [h2 x hx]; exact Bool.false_ne_true)]

theorem claim_C6_witness :
    (getRandomSize (shZero 0) [] 2 (0, 1) 2 [(1, 2)]).1 = (1, 1) :=
  (claim_C6_getRandomSize (shZero 0) [] 2 (0, 1) 2 [(1, 2)]).2.2 (by decide) (by decide)

/-! ## Claim C9: the shuffle mutates the caller's pool -/

/-- C9: the selector shuffles the caller's pool in place, modelled here by
the pool state: after any `getRandomSize` call the stored pool is the
shuffled permutation of the passed pool, also for the last-item call whose
selected size is the forced `(1, 1)`; the packing loop stores that
shuffled pool back into `s.sizes`; and Fisher-Yates genuinely reorders a
concrete two-element pool. -/
theorem claim_C9_shuffle_in_place :
    (∀ (sh1 : List Size → List Size) (g : Grid) (cols : ℕ) (pos : ℕ × ℕ) (r : ℕ)
      (sizes : List Size), (getRandomSize sh1 g cols pos r sizes).2 = sh1 sizes) ∧
    (∀ (rnd : ℕ → ℕ) (g : Grid) (cols : ℕ) (pos : ℕ × ℕ) (sizes : List Size),
      (getRandomSize (shuffleFY rnd) g cols pos 1 sizes).1 = (1, 1) ∧
      (getRandomSize (shuffleFY rnd) g cols pos 1 sizes).2 = shuffleFY rnd sizes) ∧
    (∀ (sh : ℕ → List Size → List Size) (cols n : ℕ) (sw : List (Option Size))
      (st : PackState) (classes : List String) (k : ℕ),
      (packStep sh cols n sw st classes k).sizes = sh st.rndIdx st.sizes) ∧
    shuffleFY (fun _ => 0) [((1 : ℕ), (1 : ℕ)), ((2 : ℕ), (2 : ℕ))] ≠ [(1, 1), (2, 2)] := by
  refine ⟨?_, ?_, ?_, by decide⟩
  · intro sh1 g cols pos r sizes
    exact getRandomSize_snd sh1 g cols pos r sizes
  · intro rnd g cols pos sizes
    constructor
    · unfold getRandomSize
      rw [if_pos rfl]
    · exact getRandomSize_snd _ g cols pos 1 sizes
  · intro sh cols n sw st classes k
    show (resolveSize sh st.grid cols _ (n - k) k st.sizes sw st.classSizes classes st.rndIdx).sizes
      = sh st.rndIdx st.sizes
    unfold resolveSize
    exact getRandomSize_snd _ st.grid cols _ (n - k) st.sizes

/-! ## Claim C10: termination of the position-scanning loop -/

theorem isAllocableJs_too_wide {g : Grid} {cols : ℕ} {el : JsElement}
    (h : cols < el.cols) (pos : ℕ × ℕ) : isAllocableJs g cols el pos = false := by
  unfold isAllocableJs
  rw [if_pos (by omega)]

theorem findFitAux_none_of_too_wide {g : Grid} {cols : ℕ} {el : JsElement}
    (h : cols < el.cols) : ∀ fuel pos, findFitAux g cols el fuel pos = none := by
  intro fuel
  induction fuel with
  | zero => intro pos; rfl
  | succ fuel ih =>
    intro pos
    rw [findFitAux, isAllocableJs_too_wide h pos]
    exact ih (stepPosJs cols pos)

theorem isAllocableJs_fresh_row {g : Grid} {cols : ℕ} {el : JsElement}
    (hw : el.cols ≤ cols) {x : ℕ} (hx : g.length ≤ x) :
    isAllocableJs g cols el (x, 0) = true := by
  unfold isAllocableJs
  rw [if_neg (by simp; omega)]
  simp only [List.all_eq_true, List.mem_range]
  intro di hdi dj hdj
  have h2 : cellG g (x + di) (0 + dj) = none := cellG_out (by omega) _
  rw [Nat.zero_add] at h2
  simp [h2]

theorem findFitAux_isSome_of_reach {g : Grid} {cols : ℕ} {el : JsElement} :
    ∀ fuel pos, (∃ k, k < fuel ∧ isAllocableJs g cols el ((stepPosJs cols)^[k] pos) = true) →
      (findFitAux g cols el fuel pos).isSome = true := by
  intro fuel
  induction fuel with
  | zero =>
    rintro pos ⟨k, hk, _⟩
    omega
  | succ fuel ih =>
    rintro pos ⟨k, hk, hall⟩
    rw [findFitAux]
    by_cases h0 : isAllocableJs g cols el pos = true
    · rw [if_pos h0]; rfl
    · rw [if_neg h0]
      cases k with
      | zero => simp at hall; exact absurd hall h0
      | succ k2 =>
        refine ih (stepPosJs cols pos) ⟨k2, by omega, ?_⟩
        rw [← Function.iterate_succ_apply]
        exact hall

theorem stepPosJs_iter_row (cols x : ℕ) :
    ∀ j, j ≤ cols + 1 →
      (stepPosJs cols)^[j] (x, 0) = if j ≤ cols then (x, j) else (x + 1, 0) := by
  intro j
  induction j with
  | zero => intro _; simp
  | succ j ih =>
    intro hj
    rw [Function.iterate_succ_apply', ih (by omega)]
    rw [if_pos (by omega)]
    by_cases h2 : j + 1 ≤ cols
    · rw [if_pos h2]
      unfold stepPosJs
      rw [if_pos (by omega)]
    · rw [if_neg h2]
      have h3 : j = cols := by omega
      unfold stepPosJs
      rw [if_neg (by omega)]

theorem stepPosJs_iter_rows (cols : ℕ) :
    ∀ x, (stepPosJs cols)^[x * (cols + 1)] (0, 0) = (x, 0) := by
  intro x
  induction x with
  | zero => simp
  | succ x ih =>
    have h1 : (x + 1) * (cols + 1) = (cols + 1) + x * (cols + 1) := by ring
    rw [h1, Function.iterate_add_apply, ih]
    have h2 := stepPosJs_iter_row cols x (cols + 1) (by omega)
    rw [if_neg (by omega)] at h2
    exact h2

/-- C10: the position-scanning loop of the scanning variant terminates for
every element whose column span is at most `totalCols` (a fresh
unmaterialized row is always allocable), and for an element wider than
`totalCols` the width check fails at every position and the loop never
terminates (no amount of fuel produces a position). -/
theorem claim_C10_scanning_loop (g : Grid) (cols : ℕ) (el : JsElement) :
    (el.cols ≤ cols → ∃ fuel, (findFitAux g cols el fuel (0, 0)).isSome = true) ∧
    (cols < el.cols → ∀ fuel pos, findFitAux g cols el fuel pos = none) := by
  constructor
  · intro hw
    refine ⟨g.length * (cols + 1) + 1, ?_⟩
    refine findFitAux_isSome_of_reach _ _ ⟨g.length * (cols + 1), by omega, ?_⟩
    rw [stepPosJs_iter_rows]
    exact isAllocableJs_fresh_row hw (Nat.le_refl _)
  · intro hw fuel pos
    exact findFitAux_none_of_too_wide hw fuel pos

theorem claim_C10_witness :
    (∃ fuel, (findFitAux [[some 1]] 1 ⟨1, 1⟩ fuel (0, 0)).isSome = true) ∧
      findFitAux [[some 1]] 1 ⟨1, 2⟩ 5 (0, 0) = none :=
  ⟨(claim_C10_scanning_loop [[some 1]] 1 ⟨1, 1⟩).1 (by decide),
    (claim_C10_scanning_loop [[some 1]] 1 ⟨1, 2⟩).2 (by decide) 5 (0, 0)⟩

/-! ## Claim C5: horizontal and vertical separators never cross -/

theorem vertRunsAux_sound {p : ℕ → Bool} :
    ∀ (n : ℕ) (st : Option (ℕ × ℕ)) (x : ℕ),
      (∀ a0 b0, st = some (a0, b0) → (∀ t, a0 ≤ t → t ≤ b0 → p t = true) ∧ b0 + 1 = x) →
      ∀ a b, (a, b) ∈ vertRunsAux p st x n → ∀ t, a ≤ t → t ≤ b → p t = true := by
  intro n
  induction n with
  | zero =>
    intro st x hst a b hmem t ht1 ht2
    cases st with
    | none => simp [vertRunsAux, Option.toList] at hmem
    | some ab =>
      rw [vertRunsAux] at hmem
      rcases List.mem_singleton.1 hmem with h
      exact (hst a b (by rw [h])).1 t ht1 ht2
  | succ n ih =>
    intro st x hst a b hmem t ht1 ht2
    rw [vertRunsAux] at hmem
    by_cases hp : p x
    · rw [if_pos hp] at hmem
      refine ih _ (x + 1) ?_ a b hmem t ht1 ht2
      intro a1 b1 hab1
      rw [Option.some.injEq, Prod.mk.injEq] at hab1
      obtain ⟨heq, hxb⟩ := hab1
      subst hxb
      refine ⟨fun t2 h1 h2 => ?_, rfl⟩
      cases st with
      | none =>
        simp only [Option.getD] at heq
        have h3 : t2 = x := by omega
        rw [h3]
        exact hp
      | some ab =>
        obtain ⟨a0, b0⟩ := ab
        rcases hst a0 b0 rfl with ⟨hrun, hnext⟩
        simp only [Option.getD] at heq
        rcases Nat.lt_or_ge t2 x with h3 | h3
        · exact hrun t2 (by omega) (by omega)
        · have h4 : t2 = x := by omega
          rw [h4]
          exact hp
    · rw [if_neg hp] at hmem
      rcases List.mem_append.1 hmem with h | h
      · cases st with
        | none => simp [Option.toList] at h
        | some ab =>
          obtain ⟨a0, b0⟩ := ab
          rcases List.mem_singleton.1 h with h2
          exact (hst a b (by rw [h2])).1 t ht1 ht2
      · refine ih none (x + 1) ?_ a b h t ht1 ht2
        rintro a0 b0 h2
        cases h2

theorem horizRunsAux_sound {p cross : ℕ → Bool} :
    ∀ (n : ℕ) (st : Option (ℕ × ℕ)) (y : ℕ),
      (∀ a0 b0, st = some (a0, b0) → b0 + 1 = y ∧ ∀ t, a0 ≤ t → t < b0 → cross t = false) →
      ∀ a b, (a, b) ∈ horizRunsAux p cross st y n → ∀ t, a ≤ t → t < b → cross t = false := by
  intro n
  induction n with
  | zero =>
    intro st y hst a b hmem t ht1 ht2
    cases st with
    | none => simp [horizRunsAux, Option.toList] at hmem
    | some ab =>
      rw [horizRunsAux] at hmem
      rcases List.mem_singleton.1 hmem with h
      exact (hst a b (by rw [h])).2 t ht1 ht2
  | succ n ih =>
    intro st y hst a b hmem t ht1 ht2
    rw [horizRunsAux] at hmem
    by_cases hp : p y
    · rw [if_pos hp] at hmem
      by_cases hc : (st.isSome && cross (y - 1)) = true
      · rw [if_pos hc] at hmem
        rcases List.mem_append.1 hmem with h | h
        · cases st with
          | none => simp [Option.toList] at h
          | some ab =>
            obtain ⟨a0, b0⟩ := ab
            rcases List.mem_singleton.1 h with h2
            exact (hst a b (by rw [h2])).2 t ht1 ht2
        · refine ih (some (y, y)) (y + 1) ?_ a b h t ht1 ht2
          intro a1 b1 hab1
          rw [Option.some.injEq, Prod.mk.injEq] at hab1
          obtain ⟨h1, h2⟩ := hab1
          subst h1
          subst h2
          exact ⟨rfl, fun t2 h1 h2 => by omega⟩
      · rw [if_neg hc] at hmem
        refine ih _ (y + 1) ?_ a b hmem t ht1 ht2
        intro a1 b1 hab1
        rw [Option.some.injEq, Prod.mk.injEq] at hab1
        obtain ⟨heq, hyb⟩ := hab1
        subst hyb
        refine ⟨rfl, fun t2 h1 h2 => ?_⟩
        cases st with
        | none =>
          simp only [Option.getD] at heq
          omega
        | some ab =>
          obtain ⟨a0, b0⟩ := ab
          rcases hst a0 b0 rfl with ⟨hnext, hrun⟩
          simp only [Option.getD] at heq
          have hcr : cross (y - 1) = false := by
            simp only [Option.isSome, Bool.true_and] at hc
            exact Bool.eq_false_iff.2 hc
          rcases Nat.lt_or_ge t2 b0 with h3 | h3
          · exact hrun t2 (by omega) h3
          · have h4 : t2 = b0 := by omega
            have h5 : b0 = y - 1 := by omega
            rw [h4, h5]
            exact hcr
    · rw [if_neg hp] at hmem
      rcases List.mem_append.1 hmem with h | h
      · cases st with
        | none => simp [Option.toList] at h
        | some ab =>
          obtain ⟨a0, b0⟩ := ab
          rcases List.mem_singleton.1 h with h2
          exact (hst a b (by rw [h2])).2 t ht1 ht2
      · refine ih none (y + 1) ?_ a b h t ht1 ht2
        rintro a0 b0 h2
        cases h2

theorem verticalSegments_frontier {g : Grid} {cols : ℕ} {v : VSeg}
    (hv : v ∈ verticalSegments g cols) :
    ∀ t, v.rowStart ≤ t → t ≤ v.rowEnd → isRightFrontier g t v.col = true := by
  unfold verticalSegments at hv
  rcases List.mem_flatMap.1 hv with ⟨y, _, hv2⟩
  rcases List.mem_map.1 hv2 with ⟨⟨a, b⟩, hab, hveq⟩
  intro t ht1 ht2
  rw [← hveq] at ht1 ht2 ⊢
  exact vertRunsAux_sound g.length none 0 (by rintro a0 b0 h; cases h) a b hab t ht1 ht2

theorem horizontalSegments_nocross {g : Grid} {cols : ℕ} {hseg : HSeg}
    (hh : hseg ∈ horizontalSegments g cols) :
    ∀ t, hseg.colStart ≤ t → t < hseg.colEnd →
      (isRightFrontier g hseg.row t && isRightFrontier g (hseg.row + 1) t) = false := by
  unfold horizontalSegments at hh
  rcases List.mem_flatMap.1 hh with ⟨x, _, hh2⟩
  rcases List.mem_map.1 hh2 with ⟨⟨a, b⟩, hab, hheq⟩
  intro t ht1 ht2
  rw [← hheq] at ht1 ht2 ⊢
  exact horizRunsAux_sound cols none 0 (by rintro a0 b0 h; cases h) a b hab t ht1 ht2

/-- C5: no horizontal segment and vertical segment produced by the two
extraction passes cross at a shared interior point: a horizontal run is
split exactly where both the current row and the next row have a vertical
frontier at the column boundary the run is crossing, so a crossing interior
point would contradict the split rule that held while the horizontal run
was accumulated. -/
theorem claim_C5_no_crossing {g : Grid} {cols : ℕ} {hseg : HSeg} {vseg : VSeg}
    (hh : hseg ∈ horizontalSegments g cols) (hv : vseg ∈ verticalSegments g cols) :
    ¬ crosses hseg vseg := by
  rintro ⟨h1, h2, h3, h4⟩
  have hf1 : isRightFrontier g hseg.row vseg.col = true :=
    verticalSegments_frontier hv hseg.row h3 (by omega)
  have hf2 : isRightFrontier g (hseg.row + 1) vseg.col = true :=
    verticalSegments_frontier hv (hseg.row + 1) (by omega) (by omega)
  have hno := horizontalSegments_nocross hh vseg.col h1 h2
  rw [hf1, hf2] at hno
  exact absurd hno (by simp)

theorem claim_C5_witness :
    (⟨0, 0, 2⟩ : HSeg) ∈
        horizontalSegments [[some 0, some 1, some 1, some 3], [some 2, some 2, some 2, some 3]] 4 ∧
      (⟨2, 0, 1⟩ : VSeg) ∈
        verticalSegments [[some 0, some 1, some 1, some 3], [some 2, some 2, some 2, some 3]] 4 ∧
      ¬ crosses ⟨0, 0, 2⟩ ⟨2, 0, 1⟩ :=
  ⟨by decide, by decide,
    @claim_C5_no_crossing [[some 0, some 1, some 1, some 3], [some 2, some 2, some 2, some 3]] 4
      ⟨0, 0, 2⟩ ⟨2, 0, 1⟩ (by decide) (by decide)⟩

theorem claim_C7_witness :
    ((firstEmptySpace [[some 0, none]] 2 ).1 < 1 ∧ (firstEmptySpace [[some 0, none]] 2).2 < 2 ∧
      cellG [[some 0, none]] (firstEmptySpace [[some 0, none]] 2).1
        (firstEmptySpace [[some 0, none]] 2).2 = none ∧
      (∀ i j, j < 2 → rmLt (i, j) (firstEmptySpace [[some 0, none]] 2) →
        cellG [[some 0, none]] i j ≠ none)) ∨
    (firstEmptySpace [[some 0, none]] 2 = (1, 0) ∧
      ∀ i, i < 1 → ∀ j, j < 2 → cellG [[some 0, none]] i j ≠ none) :=
  claim_C7_firstEmptySpace [[some 0, none]] 2

theorem claim_C8_witness :
    layoutP000 shZero 3 [(1, 1)] [] [] [] = ⟨[], [], [], 0, []⟩ :=
  claim_C8_zero_items shZero 3 [(1, 1)] [] []

theorem claim_C9_witness :
    (getRandomSize (shZero 0) [] 3 (0, 0) 1 [(1, 1)]).2 = shZero 0 [(1, 1)] :=
  claim_C9_shuffle_in_place.1 (shZero 0) [] 3 (0, 0) 1 [(1, 1)]

/-! ## Helper lemmas about the normalizer passes -/

theorem intRange_nil {a b : ℤ} (h : b ≤ a) : intRange a b = [] := by
  unfold intRange
  rw [show (b - a).toNat = 0 by omega]
  rfl

theorem normalizeGrid_eq_passes {pls : List Placement} {lst : Placement}
    (h : pls.getLast? = some lst) (cols : ℕ) (g : Grid) :
    normalizeGrid cols g pls = normalizePasses cols g pls lst := by
  unfold normalizeGrid
  rw [h]

theorem normPass1_id {g : Grid} {pls : List Placement} {posLast : ℕ × ℕ} {rowsLast : ℤ}
    (h : ¬(0 ≤ (posLast.1 : ℤ) + rowsLast ∧ ((posLast.1 : ℤ) + rowsLast).toNat < g.length)) :
    normPass1 g pls posLast rowsLast = (g, pls) := by
  unfold normPass1
  rw [if_neg h]

theorem rowAllFilled_of_wide {cols : ℕ} {g : Grid} {posLast : ℕ × ℕ} {colsLast : ℤ}
    (h : (cols : ℤ) ≤ (posLast.2 : ℤ) + colsLast) :
    rowAllFilled cols g posLast colsLast = true := by
  unfold rowAllFilled
  rw [intRange_nil h]
  rfl

theorem normPass2_id {cols : ℕ} {s1 : Grid × List Placement} {posLast : ℕ × ℕ}
    {colsLast : ℤ} (h : rowAllFilled cols s1.1 posLast colsLast = true) :
    normPass2 cols s1 posLast colsLast = s1 := by
  unfold normPass2
  rw [if_pos h]

theorem normPass3_id {cols : ℕ} {s2 : Grid × List Placement} {posLast : ℕ × ℕ}
    {rowsLast colsLast : ℤ} {lastId : ℕ}
    (h : rowAllFilled cols s2.1 posLast colsLast = true) :
    normPass3 cols s2 posLast rowsLast colsLast lastId = s2 := by
  unfold normPass3
  rw [if_pos h]

/-! ## Claim C4 (amended): a too-wide override is committed silently -/

theorem vertRunsAux_nil {p : ℕ → Bool} :
    ∀ n x, (∀ t, p t = false) → vertRunsAux p none x n = [] := by
  intro n
  induction n with
  | zero => intro x _; rfl
  | succ n ih =>
    intro x h
    rw [vertRunsAux, h x]
    simp only [Bool.false_eq_true, if_false]
    rw [ih (x + 1) h]
    rfl

/-- C4 (amended): an explicit override wider than `totalCols` raises no
error and is never clipped: the single-item layout returns the placement
with the unclipped width `w`, one total row, no separator segments, and the
occupancy grid is marked at column `cols`, beyond the column bound. -/
theorem claim_C4_amended (sh : ℕ → List Size → List Size) (cols w : ℕ) (pool : List Size)
    (hc : 1 ≤ cols) (hw : cols < w) :
    (layoutP000 sh cols pool [some (1, w)] [] [[]]).placements = [⟨0, (0, 0), 1, (w : ℤ)⟩] ∧
    (layoutP000 sh cols pool [some (1, w)] [] [[]]).totalRows = 1 ∧
    (layoutP000 sh cols pool [some (1, w)] [] [[]]).vsegs = [] ∧
    (layoutP000 sh cols pool [some (1, w)] [] [[]]).hsegs = [] ∧
    cellG (layoutP000 sh cols pool [some (1, w)] [] [[]]).grid 0 cols = some 0 := by
  have hg1len : (markElement ([] : Grid) 0 0 0 w 1).length = 1 := by
    rw [length_markElement_pos _ _ _ _ _ (by omega)]
    rfl
  have hg1cell : ∀ i j, cellG (markElement ([] : Grid) 0 0 0 w 1) i j =
      if i = 0 ∧ j < w then some 0 else none := by
    intro i j
    rw [cellG_markElement]
    by_cases h1 : 0 ≤ i ∧ i < 0 + 1 ∧ 0 ≤ j ∧ j < 0 + w
    · rw [if_pos h1, if_pos (by omega)]
    · rw [if_neg h1, if_neg (by omega)]
      exact cellG_out (by simp) j
  have hnorm : normalizeGrid cols (markElement [] 0 0 0 w 1)
        [⟨0, (0, 0), 1, (w : ℤ)⟩] =
      ((markElement ([] : Grid) 0 0 0 w 1).take 1, [⟨0, (0, 0), 1, (w : ℤ)⟩]) := by
    rw [normalizeGrid_eq_passes (show ([⟨0, (0, 0), 1, (w : ℤ)⟩] : List Placement).getLast? =
      some ⟨0, (0, 0), 1, (w : ℤ)⟩ from rfl) cols (markElement [] 0 0 0 w 1)]
    unfold normalizePasses
    rw [normPass1_id (by
      show ¬(0 ≤ ((0 : ℕ) : ℤ) + 1 ∧ (((0 : ℕ) : ℤ) + 1).toNat <
        (markElement ([] : Grid) 0 0 0 w 1).length)
      rw [hg1len]
      omega)]
    rw [normPass2_id (rowAllFilled_of_wide (by
      show (cols : ℤ) ≤ ((0 : ℕ) : ℤ) + (w : ℤ)
      omega))]
    rw [normPass3_id (rowAllFilled_of_wide (by
      show (cols : ℤ) ≤ ((0 : ℕ) : ℤ) + (w : ℤ)
      omega))]
    rfl
  have hkey : layoutP000 sh cols pool [some (1, w)] [] [[]] =
      ⟨[⟨0, (0, 0), 1, (w : ℤ)⟩],
        verticalSegments ((markElement ([] : Grid) 0 0 0 w 1).take 1) cols,
        horizontalSegments ((markElement ([] : Grid) 0 0 0 w 1).take 1) cols,
        ((markElement ([] : Grid) 0 0 0 w 1).take 1).length,
        (markElement ([] : Grid) 0 0 0 w 1).take 1⟩ := by
    show (⟨(normalizeGrid cols (markElement [] 0 0 0 w 1) [⟨0, (0, 0), 1, (w : ℤ)⟩]).2,
        verticalSegments (normalizeGrid cols (markElement [] 0 0 0 w 1)
          [⟨0, (0, 0), 1, (w : ℤ)⟩]).1 cols,
        horizontalSegments (normalizeGrid cols (markElement [] 0 0 0 w 1)
          [⟨0, (0, 0), 1, (w : ℤ)⟩]).1 cols,
        (normalizeGrid cols (markElement [] 0 0 0 w 1) [⟨0, (0, 0), 1, (w : ℤ)⟩]).1.length,
        (normalizeGrid cols (markElement [] 0 0 0 w 1) [⟨0, (0, 0), 1, (w : ℤ)⟩]).1⟩ :
        LayoutResult) = _
    rw [hnorm]
  have hTlen : ((markElement ([] : Grid) 0 0 0 w 1).take 1).length = 1 := by
    rw [List.length_take, hg1len]
    rfl
  have hTcell : ∀ j, cellG ((markElement ([] : Grid) 0 0 0 w 1).take 1) 0 j =
      if j < w then some 0 else none := by
    intro j
    rw [cellG_take (by omega), hg1cell]
    by_cases h1 : j < w
    · rw [if_pos (by omega), if_pos h1]
    · rw [if_neg (by omega), if_neg h1]
  rw [hkey]
  refine ⟨rfl, hTlen, ?_, ?_, ?_⟩
  · unfold verticalSegments
    refine List.flatMap_eq_nil_iff.2 ?_
    intro y hy
    rw [vertRunsAux_nil _ _ ?_]
    · rfl
    · intro t
      unfold isRightFrontier
      cases t with
      | zero =>
        rw [hTlen, hTcell, hTcell]
        have hy2 : y + 1 < w := by
          have := List.mem_range.1 hy
          omega
        rw [if_pos (by omega), if_pos (by omega)]
        simp
      | succ t2 =>
        rw [hTlen]
        simp
  · unfold horizontalSegments
    rw [hTlen]
    rfl
  · rw [hTcell, if_pos hw]

theorem claim_C4_amended_witness :
    (layoutP000 shZero 2 [(1, 1)] [some (1, 3)] [] [[]]).placements =
        [⟨0, (0, 0), 1, (3 : ℤ)⟩] ∧
      (layoutP000 shZero 2 [(1, 1)] [some (1, 3)] [] [[]]).totalRows = 1 ∧
      (layoutP000 shZero 2 [(1, 1)] [some (1, 3)] [] [[]]).vsegs = [] ∧
      (layoutP000 shZero 2 [(1, 1)] [some (1, 3)] [] [[]]).hsegs = [] ∧
      cellG (layoutP000 shZero 2 [(1, 1)] [some (1, 3)] [] [[]]).grid 0 2 = some 0 :=
  claim_C4_amended shZero 2 3 [(1, 1)] (by decide) (by decide)

/-! ## Towards claim C1: invariants of the packing loop -/

theorem get?_append_lt {l : List α} {x : α} {m : ℕ} (h : m < l.length) :
    (l ++ [x]).get? m = l.get? m := by
  rw [List.get?_eq_getElem?, List.get?_eq_getElem?, List.getElem?_append_left h]

theorem get?_set_self {l : List α} {i : ℕ} {a : α} (h : i < l.length) :
    (l.set i a).get? i = some a := by
  rw [List.get?_eq_getElem?, List.getElem?_set_self h]

theorem get?_set_ne {l : List α} {i m : ℕ} {a : α} (h : i ≠ m) :
    (l.set i a).get? m = l.get? m := by
  rw [List.get?_eq_getElem?, List.get?_eq_getElem?, List.getElem?_set_ne h]

theorem mem_of_get? {l : List α} {m : ℕ} {p : α} (h : l.get? m = some p) : p ∈ l :=
  List.get?_mem h

theorem get?_of_mem {l : List α} {p : α} (h : p ∈ l) : ∃ m, l.get? m = some p := by
  rcases List.mem_iff_getElem?.1 h with ⟨m, hm⟩
  exact ⟨m, by rw [List.get?_eq_getElem?]; exact hm⟩

/-- The first empty cell is within the column bound and genuinely empty
(also at the sentinel `(grid.length, 0)`, whose cell reads `none`). -/
theorem fe_cell_none (g : Grid) (cols : ℕ) (hc : 1 ≤ cols) :
    (firstEmptySpace g cols).2 < cols ∧
      cellG g (firstEmptySpace g cols).1 (firstEmptySpace g cols).2 = none := by
  rcases firstEmptySpace_spec g cols with ⟨h1, _⟩ | ⟨_, h2, h3, _⟩
  · rw [h1]
    exact ⟨hc, cellG_out (Nat.le_refl _) 0⟩
  · exact ⟨h2, h3⟩

/-- Any size the selector returns is valid and allocable at the first
empty cell (entries of the shuffled pool are checked by `isAllocable`, and
the fallback `(1, 1)` always fits at the first empty cell). -/
theorem getRandomSize_fe (sh1 : List Size → List Size) (g : Grid) (cols : ℕ) (hc : 1 ≤ cols)
    (remaining : ℕ) (sizes : List Size)
    (hsz : ∀ sz ∈ sh1 sizes, 1 ≤ sz.1 ∧ 1 ≤ sz.2) :
    1 ≤ (getRandomSize sh1 g cols (firstEmptySpace g cols) remaining sizes).1.1 ∧
    1 ≤ (getRandomSize sh1 g cols (firstEmptySpace g cols) remaining sizes).1.2 ∧
    isAllocable g cols (getRandomSize sh1 g cols (firstEmptySpace g cols) remaining sizes).1
      (firstEmptySpace g cols) = true := by
  rcases fe_cell_none g cols hc with ⟨hfc, hfn⟩
  rcases getRandomSize_cases sh1 g cols (firstEmptySpace g cols) remaining sizes with h | ⟨hmem, hall⟩
  · rw [h]
    exact ⟨Nat.le_refl _, Nat.le_refl _, if_isAllocable_one g cols _ hfc hfn⟩
  · rcases hsz _ hmem with ⟨h1, h2⟩
    exact ⟨h1, h2, hall⟩

/-- With no `startsWith` entries and no class pools, one packing iteration
places the selected size at the first empty cell and records it. -/
theorem packStep_eq (sh : ℕ → List Size → List Size) (cols n : ℕ) (st : PackState)
    (classes : List String) (k : ℕ) (hcs : st.classSizes = []) :
    packStep sh cols n [] st classes k =
      ⟨markElement st.grid (firstEmptySpace st.grid cols).1 (firstEmptySpace st.grid cols).2 k
          (getRandomSize (sh st.rndIdx) st.grid cols (firstEmptySpace st.grid cols) (n - k)
            st.sizes).1.2
          (getRandomSize (sh st.rndIdx) st.grid cols (firstEmptySpace st.grid cols) (n - k)
            st.sizes).1.1,
        (getRandomSize (sh st.rndIdx) st.grid cols (firstEmptySpace st.grid cols) (n - k)
          st.sizes).2,
        [], st.rndIdx + 1,
        st.placements ++ [⟨k, firstEmptySpace st.grid cols,
          ((getRandomSize (sh st.rndIdx) st.grid cols (firstEmptySpace st.grid cols) (n - k)
            st.sizes).1.1 : ℤ),
          ((getRandomSize (sh st.rndIdx) st.grid cols (firstEmptySpace st.grid cols) (n - k)
            st.sizes).1.2 : ℤ)⟩]⟩ := by
  unfold packStep resolveSize
  rw [hcs]
  rfl

/-- If every occupied cell stays occupied and the old first empty cell
became occupied, the first empty cell advanced in row-major order. -/
theorem fe_advances {g g' : Grid} {cols : ℕ}
    (hmono : ∀ i j, j < cols → cellG g i j ≠ none → cellG g' i j ≠ none)
    (hfe : cellG g' (firstEmptySpace g cols).1 (firstEmptySpace g cols).2 ≠ none) :
    rmLt (firstEmptySpace g cols) (firstEmptySpace g' cols) := by
  by_cases h : rmLt (firstEmptySpace g cols) (firstEmptySpace g' cols)
  · exact h
  · exfalso
    rcases firstEmptySpace_spec g' cols with ⟨h1, h2⟩ | ⟨h1, h2, h3, _⟩
    · -- every materialized cell of `g'` is occupied and the sentinel is
      -- `(g'.length, 0)`; the old first empty cell must sit past the end,
      -- but it is occupied in `g'`, hence materialized.
      rw [h1] at h
      have h4 : g'.length ≤ (firstEmptySpace g cols).1 := by
        unfold rmLt at h
        simp only [not_or, not_and, not_lt] at h
        omega
      exact hfe (cellG_out h4 _)
    · -- the new first empty cell is empty in `g'`; were it row-major at or
      -- before the old one, it would be occupied.
      rcases Nat.lt_trichotomy (firstEmptySpace g' cols).1 (firstEmptySpace g cols).1 with
        hlt | heq | hgt
      · rcases firstEmptySpace_spec g cols with ⟨hg1, hg2⟩ | ⟨hg1, hg2, hg3, hg4⟩
        · have h5 : (firstEmptySpace g' cols).1 < g.length := by rw [hg1] at hlt; exact hlt
          exact (hmono _ _ h2 (hg2 _ h5 _ h2)) h3
        · exact (hmono _ _ h2 (hg4 _ _ h2 (Or.inl hlt))) h3
      · rcases Nat.lt_trichotomy (firstEmptySpace g' cols).2 (firstEmptySpace g cols).2 with
          hlt2 | heq2 | hgt2
        · rcases firstEmptySpace_spec g cols with ⟨hg1, hg2⟩ | ⟨hg1, hg2, hg3, hg4⟩
          · rw [hg1] at hlt2
            omega
          · exact (hmono _ _ h2 (hg4 _ _ h2 (Or.inr ⟨heq, hlt2⟩))) h3
        · apply hfe
          rw [show firstEmptySpace g cols =
            ((firstEmptySpace g' cols).1, (firstEmptySpace g' cols).2) by
              rw [heq, heq2]]
          exact h3
        · exact h (Or.inr ⟨heq.symm, hgt2⟩)
      · exact h (Or.inl hgt)

/-- Placing an allocable rectangle at the first empty cell preserves the
packing invariant. -/
theorem packInv_mark (cols : ℕ) (hc : 1 ≤ cols) (g : Grid) (pls : List Placement) (k : ℕ)
    (r c : ℕ) (fe : ℕ × ℕ) (hfe : firstEmptySpace g cols = fe) (hr : 1 ≤ r) (hcw : 1 ≤ c)
    (hall : isAllocable g cols (r, c) fe = true)
    (hinv : packInv cols g pls) (hlen : pls.length = k) :
    packInv cols (markElement g fe.1 fe.2 k c r)
      (pls ++ [⟨k, fe, (r : ℤ), (c : ℤ)⟩]) := by
  obtain ⟨hA1, hA2, hA3, hA4, hA5⟩ := hinv
  rcases isAllocable_iff.1 hall with ⟨hwid, hcells⟩
  have hwid2 : (fe.2 : ℤ) + (c : ℤ) ≤ (cols : ℤ) := by
    have h2 : ((r, c).2 : ℤ) = (c : ℤ) := rfl
    omega
  have hmark : ∀ i j, cellG (markElement g fe.1 fe.2 k c r) i j =
      if fe.1 ≤ i ∧ i < fe.1 + r ∧ fe.2 ≤ j ∧ j < fe.2 + c then some k
      else cellG g i j := fun i j => cellG_markElement g fe.1 fe.2 k c r i j
  have hcells2 : ∀ i j, fe.1 ≤ i → i < fe.1 + r → fe.2 ≤ j → j < fe.2 + c →
      cellG g i j = none := by
    intro i j h1 h2 h3 h4
    have h5 := hcells (i - fe.1) (by omega) (j - fe.2) (by omega)
    rw [show fe.1 + (i - fe.1) = i by omega, show fe.2 + (j - fe.2) = j by omega] at h5
    exact h5
  have hnewrect : ∀ i j, inRect ⟨k, fe, (r : ℤ), (c : ℤ)⟩ i j ↔
      (fe.1 ≤ i ∧ i < fe.1 + r ∧ fe.2 ≤ j ∧ j < fe.2 + c) := by
    intro i j
    show (fe.1 ≤ i ∧ (i : ℤ) < (fe.1 : ℤ) + (r : ℤ) ∧ fe.2 ≤ j ∧ (j : ℤ) < (fe.2 : ℤ) + (c : ℤ))
      ↔ _
    constructor
    · rintro ⟨u1, u2, u3, u4⟩
      exact ⟨u1, by omega, u3, by omega⟩
    · rintro ⟨u1, u2, u3, u4⟩
      exact ⟨u1, by omega, u3, by omega⟩
  have holddisj : ∀ m p, pls.get? m = some p → ∀ i j, inRect p i j →
      ¬(fe.1 ≤ i ∧ i < fe.1 + r ∧ fe.2 ≤ j ∧ j < fe.2 + c) := by
    intro m p hm i j hij hin
    have h1 := hA3 m p hm i j hij
    rw [hcells2 i j hin.1 hin.2.1 hin.2.2.1 hin.2.2.2] at h1
    cases h1
  refine ⟨?_, ?_, ?_, ?_, ?_⟩
  · intro m p hm
    rcases Nat.lt_trichotomy m pls.length with h | h | h
    · rw [get?_append_lt h] at hm
      exact hA1 m p hm
    · subst h
      rw [List.get?_concat_length] at hm
      cases hm
      exact hlen.symm
    · rw [List.get?_eq_getElem?, List.getElem?_eq_none (by simp; omega)] at hm
      cases hm
  · intro m p hm
    rcases Nat.lt_trichotomy m pls.length with h | h | h
    · rw [get?_append_lt h] at hm
      exact hA2 m p hm
    · subst h
      rw [List.get?_concat_length] at hm
      cases hm
      refine ⟨?_, ?_, ?_⟩
      · show (1 : ℤ) ≤ (r : ℤ)
        omega
      · show (1 : ℤ) ≤ (c : ℤ)
        omega
      · show (fe.2 : ℤ) + (c : ℤ) ≤ (cols : ℤ)
        exact hwid2
    · rw [List.get?_eq_getElem?, List.getElem?_eq_none (by simp; omega)] at hm
      cases hm
  · intro m p hm i j hij
    rcases Nat.lt_trichotomy m pls.length with h | h | h
    · rw [get?_append_lt h] at hm
      rw [hmark, if_neg (holddisj m p hm i j hij)]
      exact hA3 m p hm i j hij
    · subst h
      rw [List.get?_concat_length] at hm
      cases hm
      rw [hmark, if_pos ((hnewrect i j).1 hij)]
    · rw [List.get?_eq_getElem?, List.getElem?_eq_none (by simp; omega)] at hm
      cases hm
  · intro i j id hcell
    rw [hmark] at hcell
    by_cases h : fe.1 ≤ i ∧ i < fe.1 + r ∧ fe.2 ≤ j ∧ j < fe.2 + c
    · rw [if_pos h] at hcell
      cases hcell
      refine ⟨⟨k, fe, (r : ℤ), (c : ℤ)⟩, ?_, (hnewrect i j).2 h⟩
      rw [← hlen, List.get?_concat_length]
    · rw [if_neg h] at hcell
      rcases hA4 i j id hcell with ⟨p, hp, hin⟩
      have hidlt : id < pls.length := by
        by_contra h2
        rw [List.get?_eq_getElem?, List.getElem?_eq_none (by omega)] at hp
        cases hp
      exact ⟨p, by rw [get?_append_lt hidlt]; exact hp, hin⟩
  · have hmono : ∀ i j, j < cols → cellG g i j ≠ none →
        cellG (markElement g fe.1 fe.2 k c r) i j ≠ none := by
      intro i j _ hne
      rw [hmark]
      by_cases h : fe.1 ≤ i ∧ i < fe.1 + r ∧ fe.2 ≤ j ∧ j < fe.2 + c
      · rw [if_pos h]; simp
      · rw [if_neg h]; exact hne
    have hfeocc : cellG (markElement g fe.1 fe.2 k c r) fe.1 fe.2 ≠ none := by
      rw [hmark, if_pos ⟨Nat.le_refl _, by omega, Nat.le_refl _, by omega⟩]
      simp
    have hadv := fe_advances hmono (by rw [hfe]; exact hfeocc)
    rw [hfe] at hadv
    intro m p hm
    rcases Nat.lt_trichotomy m pls.length with h | h | h
    · rw [get?_append_lt h] at hm
      have h1 := hA5 m p hm
      rw [hfe] at h1
      rcases h1 with h1 | ⟨h1a, h1b⟩
      · rcases hadv with h2 | ⟨h2a, h2b⟩
        · exact Or.inl (by omega)
        · exact Or.inl (by omega)
      · rcases hadv with h2 | ⟨h2a, h2b⟩
        · exact Or.inl (by omega)
        · exact Or.inr ⟨by omega, by omega⟩
    · subst h
      rw [List.get?_concat_length] at hm
      cases hm
      exact hadv
    · rw [List.get?_eq_getElem?, List.getElem?_eq_none (by simp; omega)] at hm
      cases hm

/-- With one element remaining the selector returns the forced `(1, 1)`
before looking at the pool. -/
theorem getRandomSize_one (sh1 : List Size → List Size) (g : Grid) (cols : ℕ)
    (pos : ℕ × ℕ) (sizes : List Size) :
    (getRandomSize sh1 g cols pos 1 sizes).1 = (1, 1) := by
  unfold getRandomSize
  rw [if_pos rfl]

/-- Unfolding of one `classSizes` entry when the element has the class and
the current size is not in the class pool (the reselecting branch). -/
theorem classSizesLoop_cons_pos (sh : ℕ → List Size → List Size) (g : Grid) (cols : ℕ)
    (pos : ℕ × ℕ) (remaining : ℕ) (classes : List String) (key : String)
    (pool : List Size) (rest : List (String × List Size)) (sz : Size) (ridx : ℕ)
    (hcond : (classes.contains key && !(pool.contains sz)) = true) :
    classSizesLoop sh g cols pos remaining classes ((key, pool) :: rest) sz ridx =
      ((classSizesLoop sh g cols pos remaining classes rest
          (getRandomSize (sh ridx) g cols pos remaining pool).1 (ridx + 1)).1,
        (classSizesLoop sh g cols pos remaining classes rest
          (getRandomSize (sh ridx) g cols pos remaining pool).1 (ridx + 1)).2.1,
        (key, (getRandomSize (sh ridx) g cols pos remaining pool).2) ::
          (classSizesLoop sh g cols pos remaining classes rest
            (getRandomSize (sh ridx) g cols pos remaining pool).1 (ridx + 1)).2.2) := by
  rw [classSizesLoop, if_pos hcond]

/-- Unfolding of one `classSizes` entry in the non-reselecting branch. -/
theorem classSizesLoop_cons_neg (sh : ℕ → List Size → List Size) (g : Grid) (cols : ℕ)
    (pos : ℕ × ℕ) (remaining : ℕ) (classes : List String) (key : String)
    (pool : List Size) (rest : List (String × List Size)) (sz : Size) (ridx : ℕ)
    (hcond : ¬(classes.contains key && !(pool.contains sz)) = true) :
    classSizesLoop sh g cols pos remaining classes ((key, pool) :: rest) sz ridx =
      ((classSizesLoop sh g cols pos remaining classes rest sz ridx).1,
        (classSizesLoop sh g cols pos remaining classes rest sz ridx).2.1,
        (key, pool) :: (classSizesLoop sh g cols pos remaining classes rest sz ridx).2.2) := by
  rw [classSizesLoop, if_neg hcond]

/-- With one element remaining every reselection is forced to `(1, 1)` too,
so the class loop keeps the forced size. -/
theorem classSizesLoop_one (sh : ℕ → List Size → List Size) (g : Grid) (cols : ℕ)
    (pos : ℕ × ℕ) (classes : List String) :
    ∀ (entries : List (String × List Size)) (ridx : ℕ),
      (classSizesLoop sh g cols pos 1 classes entries (1, 1) ridx).1 = (1, 1) := by
  intro entries
  induction entries with
  | nil => intro ridx; rfl
  | cons e rest ih =>
    intro ridx
    obtain ⟨key, pool⟩ := e
    by_cases hcond : (classes.contains key && !(pool.contains ((1, 1) : Size))) = true
    · rw [classSizesLoop_cons_pos sh g cols pos 1 classes key pool rest (1, 1) ridx hcond,
        getRandomSize_one]
      exact ih (ridx + 1)
    · rw [classSizesLoop_cons_neg sh g cols pos 1 classes key pool rest (1, 1) ridx hcond]
      exact ih ridx

/-- Every reselection of the `classSizes` loop goes through the selector,
so starting from a valid size allocable at the first empty cell it returns
a valid size allocable there, and the stored-back class pools stay valid. -/
theorem classSizesLoop_fe (sh : ℕ → List Size → List Size)
    (hsh : ∀ k l, ∀ sz ∈ sh k l, sz ∈ l) (g : Grid) (cols : ℕ) (hc : 1 ≤ cols)
    (remaining : ℕ) (classes : List String) :
    ∀ (entries : List (String × List Size)) (sz : Size) (ridx : ℕ),
      (∀ e ∈ entries, ∀ s ∈ e.2, 1 ≤ s.1 ∧ 1 ≤ s.2) →
      1 ≤ sz.1 → 1 ≤ sz.2 →
      isAllocable g cols sz (firstEmptySpace g cols) = true →
      (1 ≤ (classSizesLoop sh g cols (firstEmptySpace g cols) remaining classes entries sz
          ridx).1.1 ∧
        1 ≤ (classSizesLoop sh g cols (firstEmptySpace g cols) remaining classes entries sz
          ridx).1.2 ∧
        isAllocable g cols
          (classSizesLoop sh g cols (firstEmptySpace g cols) remaining classes entries sz ridx).1
          (firstEmptySpace g cols) = true) ∧
      (∀ e ∈ (classSizesLoop sh g cols (firstEmptySpace g cols) remaining classes entries sz
          ridx).2.2, ∀ s ∈ e.2, 1 ≤ s.1 ∧ 1 ≤ s.2) := by
  intro entries
  induction entries with
  | nil =>
    intro sz ridx hval h1 h2 hall
    exact ⟨⟨h1, h2, hall⟩, fun e he => absurd he (List.not_mem_nil e)⟩
  | cons e rest ih =>
    intro sz ridx hval h1 h2 hall
    obtain ⟨key, pool⟩ := e
    by_cases hcond : (classes.contains key && !(pool.contains sz)) = true
    · rw [classSizesLoop_cons_pos sh g cols (firstEmptySpace g cols) remaining classes key pool
        rest sz ridx hcond]
      have hpoolv : ∀ s ∈ sh ridx pool, 1 ≤ s.1 ∧ 1 ≤ s.2 :=
        fun s hs => hval (key, pool) (List.mem_cons_self _ _) s (hsh ridx pool s hs)
      obtain ⟨hr1, hr2, hr3⟩ := getRandomSize_fe (sh ridx) g cols hc remaining pool hpoolv
      obtain ⟨hsz2, hcs2⟩ := ih (getRandomSize (sh ridx) g cols (firstEmptySpace g cols)
        remaining pool).1 (ridx + 1) (fun e2 he2 => hval e2 (List.mem_cons_of_mem _ he2))
        hr1 hr2 hr3
      refine ⟨hsz2, ?_⟩
      intro e2 he2 s hs
      rcases List.mem_cons.1 he2 with he2 | he2
      · subst he2
        have hs2 : s ∈ sh ridx pool := by
          rw [getRandomSize_snd] at hs
          exact hs
        exact hpoolv s hs2
      · exact hcs2 e2 he2 s hs
    · rw [classSizesLoop_cons_neg sh g cols (firstEmptySpace g cols) remaining classes key pool
        rest sz ridx hcond]
      obtain ⟨hsz2, hcs2⟩ := ih sz ridx (fun e2 he2 => hval e2 (List.mem_cons_of_mem _ he2))
        h1 h2 hall
      refine ⟨hsz2, ?_⟩
      intro e2 he2 s hs
      rcases List.mem_cons.1 he2 with he2 | he2
      · subst he2
        exact hval (key, pool) (List.mem_cons_self _ _) s hs
      · exact hcs2 e2 he2 s hs

/-- Size resolution with no `startsWith` entry but arbitrary class pools:
the committed size is valid and allocable at the first empty cell, the
stored-back pools stay valid, and the last element is still forced to
`(1, 1)` (every reselection forces it too). -/
theorem resolveSize_fe (sh : ℕ → List Size → List Size)
    (hsh : ∀ k l, ∀ sz ∈ sh k l, sz ∈ l) (g : Grid) (cols : ℕ) (hc : 1 ≤ cols)
    (remaining k : ℕ) (sizes : List Size) (classSizes : List (String × List Size))
    (classes : List String) (ridx : ℕ)
    (hsizes : ∀ sz ∈ sizes, 1 ≤ sz.1 ∧ 1 ≤ sz.2)
    (hcsv : ∀ e ∈ classSizes, ∀ s ∈ e.2, 1 ≤ s.1 ∧ 1 ≤ s.2) :
    (1 ≤ (resolveSize sh g cols (firstEmptySpace g cols) remaining k sizes [] classSizes
        classes ridx).size.1 ∧
      1 ≤ (resolveSize sh g cols (firstEmptySpace g cols) remaining k sizes [] classSizes
        classes ridx).size.2 ∧
      isAllocable g cols
        (resolveSize sh g cols (firstEmptySpace g cols) remaining k sizes [] classSizes
          classes ridx).size (firstEmptySpace g cols) = true) ∧
    (∀ sz ∈ (resolveSize sh g cols (firstEmptySpace g cols) remaining k sizes [] classSizes
      classes ridx).sizes, 1 ≤ sz.1 ∧ 1 ≤ sz.2) ∧
    (∀ e ∈ (resolveSize sh g cols (firstEmptySpace g cols) remaining k sizes [] classSizes
      classes ridx).classSizes, ∀ s ∈ e.2, 1 ≤ s.1 ∧ 1 ≤ s.2) ∧
    (remaining = 1 →
      (resolveSize sh g cols (firstEmptySpace g cols) remaining k sizes [] classSizes
        classes ridx).size = (1, 1)) := by
  obtain ⟨hr1, hr2, hr3⟩ := getRandomSize_fe (sh ridx) g cols hc remaining sizes
    (fun sz hsz => hsizes sz (hsh ridx sizes sz hsz))
  obtain ⟨hsz2, hcs2⟩ := classSizesLoop_fe sh hsh g cols hc remaining classes classSizes
    (getRandomSize (sh ridx) g cols (firstEmptySpace g cols) remaining sizes).1 (ridx + 1)
    hcsv hr1 hr2 hr3
  refine ⟨hsz2, ?_, hcs2, ?_⟩
  · show ∀ sz ∈ (getRandomSize (sh ridx) g cols (firstEmptySpace g cols) remaining sizes).2,
      1 ≤ sz.1 ∧ 1 ≤ sz.2
    rw [getRandomSize_snd]
    intro sz hsz
    exact hsizes sz (hsh ridx sizes sz hsz)
  · intro h1
    subst h1
    show (classSizesLoop sh g cols (firstEmptySpace g cols) 1 classes classSizes
      (getRandomSize (sh ridx) g cols (firstEmptySpace g cols) 1 sizes).1 (ridx + 1)).1 = (1, 1)
    rw [getRandomSize_one]
    exact classSizesLoop_one sh g cols (firstEmptySpace g cols) classes classSizes (ridx + 1)

/-- With no `startsWith` entries, one packing iteration places the resolved
size at the first empty cell and records it, threading the mutated pools. -/
theorem packStep_resolve (sh : ℕ → List Size → List Size) (cols n : ℕ) (st : PackState)
    (classes : List String) (k : ℕ) :
    packStep sh cols n [] st classes k =
      ⟨markElement st.grid (firstEmptySpace st.grid cols).1 (firstEmptySpace st.grid cols).2 k
          (resolveSize sh st.grid cols (firstEmptySpace st.grid cols) (n - k) k st.sizes []
            st.classSizes classes st.rndIdx).size.2
          (resolveSize sh st.grid cols (firstEmptySpace st.grid cols) (n - k) k st.sizes []
            st.classSizes classes st.rndIdx).size.1,
        (resolveSize sh st.grid cols (firstEmptySpace st.grid cols) (n - k) k st.sizes []
          st.classSizes classes st.rndIdx).sizes,
        (resolveSize sh st.grid cols (firstEmptySpace st.grid cols) (n - k) k st.sizes []
          st.classSizes classes st.rndIdx).classSizes,
        (resolveSize sh st.grid cols (firstEmptySpace st.grid cols) (n - k) k st.sizes []
          st.classSizes classes st.rndIdx).rndIdx,
        st.placements ++ [⟨k, firstEmptySpace st.grid cols,
          ((resolveSize sh st.grid cols (firstEmptySpace st.grid cols) (n - k) k st.sizes []
            st.classSizes classes st.rndIdx).size.1 : ℤ),
          ((resolveSize sh st.grid cols (firstEmptySpace st.grid cols) (n - k) k st.sizes []
            st.classSizes classes st.rndIdx).size.2 : ℤ)⟩]⟩ := rfl

/-- Running the packing loop on a nonempty item list (no `startsWith`
entries; class pools allowed, all pool sizes at least `1 x 1`) yields a
state satisfying the normalizer-entry invariant: the last element is a
`1 x 1` rectangle at the first empty cell it was given, everything
row-major before it is occupied, and ids, rectangles and grid cells are
mutually consistent. -/
theorem packList_layoutInv (sh : ℕ → List Size → List Size) (cols : ℕ)
    (hsh : ∀ k l, ∀ sz ∈ sh k l, sz ∈ l) (hc : 1 ≤ cols) (n : ℕ) :
    ∀ (its : List (List String)) (k : ℕ) (st : PackState),
      its ≠ [] → n = k + its.length →
      packInv cols st.grid st.placements → st.placements.length = k →
      (∀ sz ∈ st.sizes, 1 ≤ sz.1 ∧ 1 ≤ sz.2) →
      (∀ e ∈ st.classSizes, ∀ s ∈ e.2, 1 ≤ s.1 ∧ 1 ≤ s.2) →
      ∃ rstar cstar,
        layoutInv cols n rstar cstar (packList sh cols n [] its k st).grid
          (packList sh cols n [] its k st).placements ∧
        cstar < cols ∧
        rstar + 1 ≤ (packList sh cols n [] its k st).grid.length ∧
        (packList sh cols n [] its k st).placements.getLast? =
          some ⟨n - 1, (rstar, cstar), 1, 1⟩ := by
  intro its
  induction its with
  | nil => intro k st h; exact absurd rfl h
  | cons cs rest ih =>
    intro k st _ hn hinv hlen hsizes hcsv
    rw [packList, packStep_resolve sh cols n st cs k]
    obtain ⟨⟨hR1, hR2, hR3⟩, hRsizes, hRcs, hRone⟩ := resolveSize_fe sh hsh st.grid cols hc
      (n - k) k st.sizes st.classSizes cs st.rndIdx hsizes hcsv
    cases rest with
    | nil =>
      -- this is the last element: the selector forces size (1, 1)
      have hnk : n - k = 1 := by simp at hn; omega
      have hk : k = n - 1 := by simp at hn; omega
      have hsz1 : (resolveSize sh st.grid cols (firstEmptySpace st.grid cols) (n - k) k
          st.sizes [] st.classSizes cs st.rndIdx).size = (1, 1) := hRone hnk
      rcases fe_cell_none st.grid cols hc with ⟨hfc, hfn⟩
      have hall : isAllocable st.grid cols (1, 1) (firstEmptySpace st.grid cols) = true :=
        if_isAllocable_one st.grid cols _ hfc hfn
      have hmarked := packInv_mark cols hc st.grid st.placements k 1 1
        (firstEmptySpace st.grid cols) rfl (Nat.le_refl 1) (Nat.le_refl 1) hall hinv hlen
      rw [hsz1]
      rw [packList]
      refine ⟨(firstEmptySpace st.grid cols).1, (firstEmptySpace st.grid cols).2, ?_, hfc, ?_, ?_⟩
      · obtain ⟨hB1, hB2, hB3, hB4, _⟩ := hmarked
        have hmark : ∀ i j, cellG (markElement st.grid (firstEmptySpace st.grid cols).1
            (firstEmptySpace st.grid cols).2 k 1 1) i j =
            if (firstEmptySpace st.grid cols).1 ≤ i ∧ i < (firstEmptySpace st.grid cols).1 + 1 ∧
              (firstEmptySpace st.grid cols).2 ≤ j ∧ j < (firstEmptySpace st.grid cols).2 + 1
            then some k else cellG st.grid i j :=
          fun i j => cellG_markElement st.grid _ _ k 1 1 i j
        refine ⟨?_, ?_, ?_, ?_, ?_, ?_, ?_, ?_⟩
        · intro m p hm
          exact hB1 m p (by
            show (st.placements ++
              [(⟨k, firstEmptySpace st.grid cols, ((1 : ℕ) : ℤ), ((1 : ℕ) : ℤ)⟩ : Placement)]).get?
                m = some p
            exact hm)
        · intro m p hm
          rcases hB2 m p (by exact hm) with ⟨_, h2, h3⟩
          exact ⟨h2, h3⟩
        · intro m p hm
          exact hB3 m p (by exact hm)
        · intro i j id hcell
          exact hB4 i j id hcell
        · intro i j hj hrm
          rcases firstEmptySpace_spec st.grid cols with ⟨hg1, hg2⟩ | ⟨_, _, _, hg4⟩
          · rw [hmark]
            by_cases h : (firstEmptySpace st.grid cols).1 ≤ i ∧
                i < (firstEmptySpace st.grid cols).1 + 1 ∧
                (firstEmptySpace st.grid cols).2 ≤ j ∧ j < (firstEmptySpace st.grid cols).2 + 1
            · rw [if_pos h]; simp
            · rw [if_neg h]
              rw [hg1] at hrm
              have h5 : i < st.grid.length := by
                rcases hrm with h5 | ⟨h5, h6⟩
                · exact h5
                · omega
              exact hg2 i h5 j hj
          · rw [hmark]
            by_cases h : (firstEmptySpace st.grid cols).1 ≤ i ∧
                i < (firstEmptySpace st.grid cols).1 + 1 ∧
                (firstEmptySpace st.grid cols).2 ≤ j ∧ j < (firstEmptySpace st.grid cols).2 + 1
            · rw [if_pos h]; simp
            · rw [if_neg h]
              exact hg4 i j hj (by
                rcases hrm with h5 | ⟨h5, h6⟩
                · exact Or.inl h5
                · exact Or.inr ⟨h5, h6⟩)
        · rw [hmark, if_pos ⟨Nat.le_refl _, by omega, Nat.le_refl _, by omega⟩, hk]
        · rw [← hk, ← hlen, List.get?_concat_length]
          rfl
        · rw [List.length_append, hlen, List.length_singleton]
          omega
      · have h1 := length_markElement_le st.grid (firstEmptySpace st.grid cols).1
          (firstEmptySpace st.grid cols).2 k 1 1
        rw [length_markElement_pos st.grid _ _ k 1 (by omega)]
        omega
      · rw [List.getLast?_concat, ← hk]
        rfl
    | cons cs2 rest2 =>
      have hstep := packInv_mark cols hc st.grid st.placements k
        (resolveSize sh st.grid cols (firstEmptySpace st.grid cols) (n - k) k st.sizes []
          st.classSizes cs st.rndIdx).size.1
        (resolveSize sh st.grid cols (firstEmptySpace st.grid cols) (n - k) k st.sizes []
          st.classSizes cs st.rndIdx).size.2
        (firstEmptySpace st.grid cols) rfl hR1 hR2
        (by
          rw [show ((resolveSize sh st.grid cols (firstEmptySpace st.grid cols) (n - k) k
            st.sizes [] st.classSizes cs st.rndIdx).size.1,
            (resolveSize sh st.grid cols (firstEmptySpace st.grid cols) (n - k) k st.sizes []
              st.classSizes cs st.rndIdx).size.2) =
            (resolveSize sh st.grid cols (firstEmptySpace st.grid cols) (n - k) k st.sizes []
              st.classSizes cs st.rndIdx).size from rfl]
          exact hR3)
        hinv hlen
      refine ih (k + 1)
        (⟨markElement st.grid (firstEmptySpace st.grid cols).1 (firstEmptySpace st.grid cols).2 k
            (resolveSize sh st.grid cols (firstEmptySpace st.grid cols) (n - k) k st.sizes []
              st.classSizes cs st.rndIdx).size.2
            (resolveSize sh st.grid cols (firstEmptySpace st.grid cols) (n - k) k st.sizes []
              st.classSizes cs st.rndIdx).size.1,
          (resolveSize sh st.grid cols (firstEmptySpace st.grid cols) (n - k) k st.sizes []
            st.classSizes cs st.rndIdx).sizes,
          (resolveSize sh st.grid cols (firstEmptySpace st.grid cols) (n - k) k st.sizes []
            st.classSizes cs st.rndIdx).classSizes,
          (resolveSize sh st.grid cols (firstEmptySpace st.grid cols) (n - k) k st.sizes []
            st.classSizes cs st.rndIdx).rndIdx,
          st.placements ++ [⟨k, firstEmptySpace st.grid cols,
            ((resolveSize sh st.grid cols (firstEmptySpace st.grid cols) (n - k) k st.sizes []
              st.classSizes cs st.rndIdx).size.1 : ℤ),
            ((resolveSize sh st.grid cols (firstEmptySpace st.grid cols) (n - k) k st.sizes []
              st.classSizes cs st.rndIdx).size.2 : ℤ)⟩]⟩ : PackState)
        (by simp) (by simp at hn ⊢; omega) hstep
        (by
          show (st.placements ++ [_]).length = k + 1
          rw [List.length_append, hlen, List.length_singleton])
        hRsizes
        hRcs

/-- Effect of `shrinkRows` on a consistent state: the shrunk element's new
rectangle keeps its id on the grid, other elements are untouched, cells
above the shrink line and cells outside the element's columns are
unchanged, cleared cells are only cleared (never filled), and the
element's cells below the shrink line are gone. -/
theorem shrinkRows_spec (cols : ℕ) (g : Grid) (pls : List Placement)
    (eid : ℕ) (p : Placement) (shrinkTo : ℤ)
    (hA1 : ∀ m q, pls.get? m = some q → q.id = m)
    (hA3 : ∀ m q, pls.get? m = some q → ∀ i j, inRect q i j → cellG g i j = some q.id)
    (hA4 : ∀ i j id, cellG g i j = some id → ∃ q, pls.get? id = some q ∧ inRect q i j)
    (hp : pls.get? eid = some p)
    (hx : (p.pos.1 : ℤ) ≤ shrinkTo + 1)
    (hb : shrinkTo < (p.pos.1 : ℤ) + p.rows) :
    (∀ m q, (shrinkRows g pls eid shrinkTo).2.get? m = some q → q.id = m) ∧
    (∀ m q, (shrinkRows g pls eid shrinkTo).2.get? m = some q →
      q.cols = p.cols ∧ q.pos = p.pos ∨ pls.get? m = some q) ∧
    (∀ m q, (shrinkRows g pls eid shrinkTo).2.get? m = some q →
      ∀ i j, inRect q i j → cellG (shrinkRows g pls eid shrinkTo).1 i j = some q.id) ∧
    (∀ i j id, cellG (shrinkRows g pls eid shrinkTo).1 i j = some id →
      ∃ q, (shrinkRows g pls eid shrinkTo).2.get? id = some q ∧ inRect q i j) ∧
    (shrinkRows g pls eid shrinkTo).2.length = pls.length ∧
    (shrinkRows g pls eid shrinkTo).1.length = g.length ∧
    (∀ (i j : ℕ), (i : ℤ) ≤ shrinkTo → cellG (shrinkRows g pls eid shrinkTo).1 i j = cellG g i j) ∧
    (∀ (i j : ℕ), ((j : ℤ) < (p.pos.2 : ℤ) ∨ (p.pos.2 : ℤ) + p.cols ≤ (j : ℤ)) →
      cellG (shrinkRows g pls eid shrinkTo).1 i j = cellG g i j) ∧
    (∀ (i j : ℕ), cellG g i j = none → cellG (shrinkRows g pls eid shrinkTo).1 i j = none) ∧
    (∀ (i j : ℕ), inRect p i j → shrinkTo + 1 ≤ (i : ℤ) →
      cellG (shrinkRows g pls eid shrinkTo).1 i j = none) ∧
    (∀ m, m ≠ eid → (shrinkRows g pls eid shrinkTo).2.get? m = pls.get? m) := by
  have heq : shrinkRows g pls eid shrinkTo =
      (writeCells g (intRange (shrinkTo + 1) ((p.pos.1 : ℤ) + p.rows))
          (intRange (p.pos.2 : ℤ) ((p.pos.2 : ℤ) + p.cols)) none,
        pls.set eid { p with rows := shrinkTo - (p.pos.1 : ℤ) + 1 }) := by
    unfold shrinkRows
    rw [hp]
  rw [heq]
  have heidlt : eid < pls.length := by
    by_contra h2
    rw [List.get?_eq_getElem?, List.getElem?_eq_none (by omega)] at hp
    cases hp
  have hchar : ∀ i j, cellG (writeCells g (intRange (shrinkTo + 1) ((p.pos.1 : ℤ) + p.rows))
      (intRange (p.pos.2 : ℤ) ((p.pos.2 : ℤ) + p.cols)) none) i j =
      if shrinkTo + 1 ≤ (i : ℤ) ∧ (i : ℤ) < (p.pos.1 : ℤ) + p.rows ∧
        (p.pos.2 : ℤ) ≤ (j : ℤ) ∧ (j : ℤ) < (p.pos.2 : ℤ) + p.cols ∧ i < g.length
      then none else cellG g i j := by
    intro i j
    rw [cellG_writeCells]
    by_cases h : shrinkTo + 1 ≤ (i : ℤ) ∧ (i : ℤ) < (p.pos.1 : ℤ) + p.rows ∧
        (p.pos.2 : ℤ) ≤ (j : ℤ) ∧ (j : ℤ) < (p.pos.2 : ℤ) + p.cols ∧ i < g.length
    · rw [if_pos h, if_pos ⟨mem_intRange.2 ⟨h.1, h.2.1⟩, mem_intRange.2 ⟨h.2.2.1, h.2.2.2.1⟩,
        h.2.2.2.2⟩]
    · rw [if_neg h, if_neg (by
        rintro ⟨h1, h2, h3⟩
        rcases mem_intRange.1 h1 with ⟨h1a, h1b⟩
        rcases mem_intRange.1 h2 with ⟨h2a, h2b⟩
        exact h ⟨h1a, h1b, h2a, h2b, h3⟩)]
  have hsubrect : ∀ (i j : ℕ), shrinkTo + 1 ≤ (i : ℤ) → (i : ℤ) < (p.pos.1 : ℤ) + p.rows →
      (p.pos.2 : ℤ) ≤ (j : ℤ) → (j : ℤ) < (p.pos.2 : ℤ) + p.cols → inRect p i j := by
    intro i j h1 h2 h3 h4
    exact ⟨by omega, h2, by omega, h4⟩
  refine ⟨?_, ?_, ?_, ?_, by rw [List.length_set], by rw [length_writeCells], ?_, ?_, ?_, ?_, ?_⟩
  · intro m q hm
    rcases eq_or_ne eid m with h | h
    · subst h
      rw [get?_set_self heidlt] at hm
      cases hm
      exact hA1 eid p hp
    · rw [get?_set_ne h] at hm
      exact hA1 m q hm
  · intro m q hm
    rcases eq_or_ne eid m with h | h
    · subst h
      rw [get?_set_self heidlt] at hm
      cases hm
      exact Or.inl ⟨rfl, rfl⟩
    · rw [get?_set_ne h] at hm
      exact Or.inr hm
  · intro m q hm i j hij
    rw [hchar]
    rcases eq_or_ne eid m with h | h
    · subst h
      rw [get?_set_self heidlt] at hm
      cases hm
      -- the new rectangle lies above the shrink line inside the old one
      rcases hij with ⟨u1, u2, u3, u4⟩
      have hile : (i : ℤ) ≤ shrinkTo := by
        have : (i : ℤ) < (p.pos.1 : ℤ) + (shrinkTo - (p.pos.1 : ℤ) + 1) := u2
        omega
      rw [if_neg (by rintro ⟨v1, _⟩; omega)]
      exact hA3 eid p hp i j ⟨u1, by omega, u3, u4⟩
    · rw [get?_set_ne h] at hm
      rw [if_neg (by
        rintro ⟨v1, v2, v3, v4, v5⟩
        have hinp := hsubrect i j v1 v2 v3 v4
        have hcellq := hA3 m q hm i j hij
        have hcellp := hA3 eid p hp i j hinp
        rw [hcellq] at hcellp
        have : q.id = p.id := Option.some.inj hcellp
        rw [hA1 m q hm, hA1 eid p hp] at this
        exact h this.symm)]
      exact hA3 m q hm i j hij
  · intro i j id hcell
    rw [hchar] at hcell
    by_cases h : shrinkTo + 1 ≤ (i : ℤ) ∧ (i : ℤ) < (p.pos.1 : ℤ) + p.rows ∧
        (p.pos.2 : ℤ) ≤ (j : ℤ) ∧ (j : ℤ) < (p.pos.2 : ℤ) + p.cols ∧ i < g.length
    · rw [if_pos h] at hcell
      cases hcell
    · rw [if_neg h] at hcell
      rcases hA4 i j id hcell with ⟨q, hq, hqin⟩
      rcases eq_or_ne eid id with h2 | h2
      · subst h2
        rw [hp] at hq
        cases hq
        have hlen2 : i < g.length := by
          by_contra h3
          rw [cellG_out (by omega) j] at hcell
          cases hcell
        have hile : (i : ℤ) ≤ shrinkTo := by
          by_contra h3
          exact h ⟨by omega, hqin.2.1, by exact_mod_cast hqin.2.2.1, hqin.2.2.2, hlen2⟩
        refine ⟨{ p with rows := shrinkTo - (p.pos.1 : ℤ) + 1 }, get?_set_self heidlt, ?_⟩
        exact ⟨hqin.1, by
          show (i : ℤ) < (p.pos.1 : ℤ) + (shrinkTo - (p.pos.1 : ℤ) + 1)
          omega, hqin.2.2.1, hqin.2.2.2⟩
      · exact ⟨q, by rw [get?_set_ne h2]; exact hq, hqin⟩
  · intro i j h1
    rw [hchar, if_neg (by rintro ⟨v1, _⟩; omega)]
  · intro i j h1
    rw [hchar, if_neg (by rintro ⟨_, _, v3, v4, _⟩; omega)]
  · intro i j h1
    rw [hchar]
    by_cases h : shrinkTo + 1 ≤ (i : ℤ) ∧ (i : ℤ) < (p.pos.1 : ℤ) + p.rows ∧
        (p.pos.2 : ℤ) ≤ (j : ℤ) ∧ (j : ℤ) < (p.pos.2 : ℤ) + p.cols ∧ i < g.length
    · rw [if_pos h]
    · rw [if_neg h]; exact h1
  · intro i j hij h2
    rw [hchar]
    have hlen2 : i < g.length := by
      by_contra h3
      have h4 := hA3 eid p hp i j hij
      rw [cellG_out (by omega) j] at h4
      cases h4
    rw [if_pos ⟨h2, hij.2.1, by exact_mod_cast hij.2.2.1, hij.2.2.2, hlen2⟩]
  · intro m hm
    rw [get?_set_ne (Ne.symm hm)]

/-- One step of shrink pass 1 (scan row `rstar + 1`, shrink to `rstar`)
preserves the normalizer-entry invariant and the grid height. -/
theorem shrinkScanStep_pass1 (cols n rstar cstar : ℕ) (acc : Grid × List Placement) (col : ℤ)
    (hInv : layoutInv cols n rstar cstar acc.1 acc.2) :
    layoutInv cols n rstar cstar
      (shrinkScanStep ((rstar : ℤ) + 1 - 1) ((rstar : ℤ) + 1) acc col).1
      (shrinkScanStep ((rstar : ℤ) + 1 - 1) ((rstar : ℤ) + 1) acc col).2 ∧
    (shrinkScanStep ((rstar : ℤ) + 1 - 1) ((rstar : ℤ) + 1) acc col).1.length = acc.1.length := by
  obtain ⟨A1, A2, A3, A4, A5, A6, A7, A8⟩ := hInv
  unfold shrinkScanStep
  by_cases hg : 0 ≤ (rstar : ℤ) + 1 ∧ 0 ≤ col
  case neg =>
    rw [if_neg hg]
    exact ⟨⟨A1, A2, A3, A4, A5, A6, A7, A8⟩, rfl⟩
  rw [if_pos hg]
  have hrt : ((rstar : ℤ) + 1).toNat = rstar + 1 := by omega
  rw [hrt]
  rcases hcell : cellG acc.1 (rstar + 1) col.toNat with _ | id
  · exact ⟨⟨A1, A2, A3, A4, A5, A6, A7, A8⟩, rfl⟩
  · show layoutInv cols n rstar cstar (shrinkRows acc.1 acc.2 id ((rstar : ℤ) + 1 - 1)).1
        (shrinkRows acc.1 acc.2 id ((rstar : ℤ) + 1 - 1)).2 ∧
      (shrinkRows acc.1 acc.2 id ((rstar : ℤ) + 1 - 1)).1.length = acc.1.length
    obtain ⟨p, hp, hpin⟩ := A4 (rstar + 1) col.toNat id hcell
    have hx : (p.pos.1 : ℤ) ≤ ((rstar : ℤ) + 1 - 1) + 1 := by
      have := hpin.1; omega
    have hb : (rstar : ℤ) + 1 - 1 < (p.pos.1 : ℤ) + p.rows := by
      have := hpin.2.1; omega
    obtain ⟨S1, S2, S3, S4, S5, S6, F5, F6, F8, F7, SO⟩ :=
      shrinkRows_spec cols acc.1 acc.2 id p ((rstar : ℤ) + 1 - 1) A1 A3 A4 hp hx hb
    have hne : id ≠ n - 1 := by
      intro h
      subst h
      rw [A7] at hp
      cases hp
      have h2 := hpin.2.1
      simp only at h2
      omega
    refine ⟨⟨S1, ?_, S3, S4, ?_, ?_, ?_, by rw [S5]; exact A8⟩, S6⟩
    · intro m q hm
      rcases S2 m q hm with ⟨hcq, hpq⟩ | hold
      · rw [hcq, hpq]
        exact A2 id p hp
      · exact A2 m q hold
    · intro i j hj hlt
      have hlt' : i < rstar ∨ (i = rstar ∧ j < cstar) := hlt
      rw [F5 i j (by rcases hlt' with h | ⟨h1, h2⟩ <;> omega)]
      exact A5 i j hj hlt
    · rw [F5 rstar cstar (by omega)]
      exact A6
    · rw [SO (n - 1) (fun h2 => hne h2.symm)]
      exact A7

/-- The whole pass-1 scan preserves the invariant and the grid height. -/
theorem pass1_fold (cols n rstar cstar : ℕ) (js : List ℤ) :
    ∀ (acc : Grid × List Placement), layoutInv cols n rstar cstar acc.1 acc.2 →
    layoutInv cols n rstar cstar
      (js.foldl (shrinkScanStep ((rstar : ℤ) + 1 - 1) ((rstar : ℤ) + 1)) acc).1
      (js.foldl (shrinkScanStep ((rstar : ℤ) + 1 - 1) ((rstar : ℤ) + 1)) acc).2 ∧
    (js.foldl (shrinkScanStep ((rstar : ℤ) + 1 - 1) ((rstar : ℤ) + 1)) acc).1.length
      = acc.1.length := by
  induction js with
  | nil => intro acc h; exact ⟨h, rfl⟩
  | cons i rest ih =>
    intro acc h
    rw [List.foldl_cons]
    obtain ⟨h1, h2⟩ := shrinkScanStep_pass1 cols n rstar cstar acc i h
    obtain ⟨h3, h4⟩ := ih _ h1
    exact ⟨h3, h4.trans h2⟩

/-- Shrink pass 1 preserves the invariant and the grid height. -/
theorem normPass1_spec (cols n rstar cstar : ℕ) (g : Grid) (pls : List Placement)
    (hInv : layoutInv cols n rstar cstar g pls) :
    layoutInv cols n rstar cstar (normPass1 g pls (rstar, cstar) 1).1
      (normPass1 g pls (rstar, cstar) 1).2 ∧
    (normPass1 g pls (rstar, cstar) 1).1.length = g.length := by
  unfold normPass1
  split
  · exact pass1_fold cols n rstar cstar _ (g, pls) hInv
  · exact ⟨hInv, rfl⟩

/-- One step of shrink pass 2 (scan row `rstar` right of the last element,
shrink to `rstar - 1`): the invariant is preserved, no cell is ever filled,
and the scanned cell ends up empty. -/
theorem shrinkScanStep_pass2 (cols n rstar cstar : ℕ) (acc : Grid × List Placement) (col : ℤ)
    (hc1 : (cstar : ℤ) + 1 ≤ col) (hc2 : col < (cols : ℤ))
    (hInv : layoutInv cols n rstar cstar acc.1 acc.2) :
    layoutInv cols n rstar cstar
      (shrinkScanStep ((rstar : ℤ) - 1) (rstar : ℤ) acc col).1
      (shrinkScanStep ((rstar : ℤ) - 1) (rstar : ℤ) acc col).2 ∧
    (shrinkScanStep ((rstar : ℤ) - 1) (rstar : ℤ) acc col).1.length = acc.1.length ∧
    (∀ (i j : ℕ), cellG acc.1 i j = none →
      cellG (shrinkScanStep ((rstar : ℤ) - 1) (rstar : ℤ) acc col).1 i j = none) ∧
    cellG (shrinkScanStep ((rstar : ℤ) - 1) (rstar : ℤ) acc col).1 rstar col.toNat = none := by
  obtain ⟨A1, A2, A3, A4, A5, A6, A7, A8⟩ := hInv
  unfold shrinkScanStep
  rw [if_pos ⟨by omega, by omega⟩]
  have hrt : ((rstar : ℤ)).toNat = rstar := by omega
  rw [hrt]
  rcases hcell : cellG acc.1 rstar col.toNat with _ | id
  · exact ⟨⟨A1, A2, A3, A4, A5, A6, A7, A8⟩, rfl, fun i j h => h, hcell⟩
  · show layoutInv cols n rstar cstar (shrinkRows acc.1 acc.2 id ((rstar : ℤ) - 1)).1
        (shrinkRows acc.1 acc.2 id ((rstar : ℤ) - 1)).2 ∧
      (shrinkRows acc.1 acc.2 id ((rstar : ℤ) - 1)).1.length = acc.1.length ∧
      (∀ (i j : ℕ), cellG acc.1 i j = none →
        cellG (shrinkRows acc.1 acc.2 id ((rstar : ℤ) - 1)).1 i j = none) ∧
      cellG (shrinkRows acc.1 acc.2 id ((rstar : ℤ) - 1)).1 rstar col.toNat = none
    obtain ⟨p, hp, hpin⟩ := A4 rstar col.toNat id hcell
    -- the found element starts strictly right of the last element's column
    have hposY : cstar + 1 ≤ p.pos.2 := by
      by_contra hy
      push_neg at hy
      have hcolnat : (col.toNat : ℤ) = col := by omega
      have hin : inRect p rstar cstar := by
        refine ⟨hpin.1, hpin.2.1, by omega, ?_⟩
        have h1 := hpin.2.2.1
        have h2 := hpin.2.2.2
        omega
      have hcl := A3 id p hp rstar cstar hin
      rw [A6] at hcl
      have hid : p.id = n - 1 := (Option.some.inj hcl).symm
      have hidm := A1 id p hp
      have hideq : id = n - 1 := by omega
      subst hideq
      rw [A7] at hp
      cases hp
      have h1 := hpin.2.2.1
      have h2 := hpin.2.2.2
      simp only at h1 h2
      omega
    have hne : id ≠ n - 1 := by
      intro h
      subst h
      rw [A7] at hp
      cases hp
      have h1 := hpin.2.2.1
      have h2 := hpin.2.2.2
      simp only at h1 h2
      omega
    have hx : (p.pos.1 : ℤ) ≤ ((rstar : ℤ) - 1) + 1 := by
      have := hpin.1; omega
    have hb : (rstar : ℤ) - 1 < (p.pos.1 : ℤ) + p.rows := by
      have := hpin.2.1; omega
    obtain ⟨S1, S2, S3, S4, S5, S6, F5, F6, F8, F7, SO⟩ :=
      shrinkRows_spec cols acc.1 acc.2 id p ((rstar : ℤ) - 1) A1 A3 A4 hp hx hb
    refine ⟨⟨S1, ?_, S3, S4, ?_, ?_, ?_, by rw [S5]; exact A8⟩, S6, F8, ?_⟩
    · intro m q hm
      rcases S2 m q hm with ⟨hcq, hpq⟩ | hold
      · rw [hcq, hpq]
        exact A2 id p hp
      · exact A2 m q hold
    · intro i j hj hlt
      have hlt' : i < rstar ∨ (i = rstar ∧ j < cstar) := hlt
      rcases hlt' with h | ⟨h1, h2⟩
      · rw [F5 i j (by omega)]
        exact A5 i j hj hlt
      · rw [F6 i j (Or.inl (by omega))]
        exact A5 i j hj hlt
    · rw [F6 rstar cstar (Or.inl (by omega))]
      exact A6
    · rw [SO (n - 1) (fun h2 => hne h2.symm)]
      exact A7
    · exact F7 rstar col.toNat hpin (by omega)

/-- The whole pass-2 scan preserves the invariant, never fills a cell, and
leaves every scanned cell of row `rstar` empty. -/
theorem pass2_fold (cols n rstar cstar : ℕ) (js : List ℤ) :
    ∀ (acc : Grid × List Placement),
      (∀ j ∈ js, (cstar : ℤ) + 1 ≤ j ∧ j < (cols : ℤ)) →
      layoutInv cols n rstar cstar acc.1 acc.2 →
      layoutInv cols n rstar cstar
        (js.foldl (shrinkScanStep ((rstar : ℤ) - 1) (rstar : ℤ)) acc).1
        (js.foldl (shrinkScanStep ((rstar : ℤ) - 1) (rstar : ℤ)) acc).2 ∧
      (js.foldl (shrinkScanStep ((rstar : ℤ) - 1) (rstar : ℤ)) acc).1.length = acc.1.length ∧
      (∀ (i j : ℕ), cellG acc.1 i j = none →
        cellG (js.foldl (shrinkScanStep ((rstar : ℤ) - 1) (rstar : ℤ)) acc).1 i j = none) ∧
      (∀ j ∈ js, cellG (js.foldl (shrinkScanStep ((rstar : ℤ) - 1) (rstar : ℤ)) acc).1
        rstar j.toNat = none) := by
  induction js with
  | nil =>
    intro acc _ h
    exact ⟨h, rfl, fun i j hij => hij, fun j hj => absurd hj (List.not_mem_nil j)⟩
  | cons j rest ih =>
    intro acc hmem h
    rw [List.foldl_cons]
    obtain ⟨h1, h2, h3, h4⟩ := shrinkScanStep_pass2 cols n rstar cstar acc j
      (hmem j (List.mem_cons_self j rest)).1 (hmem j (List.mem_cons_self j rest)).2 h
    obtain ⟨g1, g2, g3, g4⟩ := ih _ (fun j' hj' => hmem j' (List.mem_cons_of_mem j hj')) h1
    refine ⟨g1, g2.trans h2, fun i jj hij => g3 i jj (h3 i jj hij), ?_⟩
    intro j' hj'
    rcases List.mem_cons.1 hj' with hj' | hj'
    · subst hj'
      exact g3 rstar j'.toNat h4
    · exact g4 j' hj'

/-- The `allFilled` scan succeeds exactly when every scanned column of the
last element's row is occupied. -/
theorem rowAllFilled_iff {cols : ℕ} {g : Grid} {posLast : ℕ × ℕ} {colsLast : ℤ} :
    rowAllFilled cols g posLast colsLast = true ↔
      ∀ j ∈ intRange ((posLast.2 : ℤ) + colsLast) (cols : ℤ),
        0 ≤ j ∧ (cellG g posLast.1 j.toNat).isSome = true := by
  unfold rowAllFilled
  rw [List.all_eq_true]
  constructor
  · intro h j hj
    have h2 := h j hj
    simp only [Bool.and_eq_true, decide_eq_true_eq] at h2
    exact h2
  · intro h j hj
    simp only [Bool.and_eq_true, decide_eq_true_eq]
    exact h j hj

/-- Unfolding of pass 2 when the `allFilled` scan failed. -/
theorem normPass2_run (cols rstar cstar : ℕ) (s1 : Grid × List Placement)
    (h : rowAllFilled cols s1.1 (rstar, cstar) 1 = false) :
    normPass2 cols s1 (rstar, cstar) 1 =
      (intRange ((cstar : ℤ) + 1) (cols : ℤ)).foldl
        (shrinkScanStep ((rstar : ℤ) - 1) (rstar : ℤ)) s1 := by
  unfold normPass2
  rw [h, if_neg Bool.false_ne_true]

/-- Unfolding of pass 3 when the `allFilled` scan failed. -/
theorem normPass3_run (cols rstar cstar lastId : ℕ) (s2 : Grid × List Placement)
    (h : rowAllFilled cols s2.1 (rstar, cstar) 1 = false) :
    normPass3 cols s2 (rstar, cstar) 1 1 lastId =
      (writeCells s2.1 (intRange (rstar : ℤ) ((rstar : ℤ) + 1))
          (intRange ((cstar : ℤ) + 1) (cols : ℤ)) (some lastId),
        match s2.2.get? (s2.2.length - 1) with
        | some p => s2.2.set (s2.2.length - 1) { p with cols := (cols : ℤ) - (cstar : ℤ) }
        | none => s2.2) := by
  unfold normPass3
  rw [h, if_neg Bool.false_ne_true]

/-- Running the three normalization passes and the truncation from a state
satisfying the normalizer-entry invariant yields a grid of exactly
`rstar + 1` rows in which every cell of the `rstar + 1` by `cols` region is
occupied, ids still equal positions in the placement list, and every
placement rectangle within the region carries its owner's id. -/
theorem normalizePasses_spec (cols n rstar cstar : ℕ) (g : Grid) (pls : List Placement)
    (hcc : cstar < cols) (hlen : rstar + 1 ≤ g.length)
    (hInv : layoutInv cols n rstar cstar g pls) :
    (normalizePasses cols g pls ⟨n - 1, (rstar, cstar), 1, 1⟩).1.length = rstar + 1 ∧
    (∀ (i j : ℕ), i ≤ rstar → j < cols →
      cellG (normalizePasses cols g pls ⟨n - 1, (rstar, cstar), 1, 1⟩).1 i j ≠ none) ∧
    (∀ m q, (normalizePasses cols g pls ⟨n - 1, (rstar, cstar), 1, 1⟩).2.get? m = some q →
      q.id = m) ∧
    (∀ m q, (normalizePasses cols g pls ⟨n - 1, (rstar, cstar), 1, 1⟩).2.get? m = some q →
      ∀ (i j : ℕ), i ≤ rstar → inRect q i j →
        cellG (normalizePasses cols g pls ⟨n - 1, (rstar, cstar), 1, 1⟩).1 i j = some q.id) := by
  obtain ⟨I1, L1⟩ := normPass1_spec cols n rstar cstar g pls hInv
  have hnp1 : (normalizePasses cols g pls ⟨n - 1, (rstar, cstar), 1, 1⟩).1 =
      (normPass3 cols (normPass2 cols (normPass1 g pls (rstar, cstar) 1) (rstar, cstar) 1)
        (rstar, cstar) 1 1 (n - 1)).1.take (((rstar : ℤ) + 1).toNat) := rfl
  have hnp2 : (normalizePasses cols g pls ⟨n - 1, (rstar, cstar), 1, 1⟩).2 =
      (normPass3 cols (normPass2 cols (normPass1 g pls (rstar, cstar) 1) (rstar, cstar) 1)
        (rstar, cstar) 1 1 (n - 1)).2 := rfl
  rw [show ((rstar : ℤ) + 1).toNat = rstar + 1 from by omega] at hnp1
  rw [hnp1, hnp2]
  generalize hgen : normPass1 g pls (rstar, cstar) 1 = s1 at I1 L1 ⊢
  rcases hAF : rowAllFilled cols s1.1 (rstar, cstar) 1 with _ | _
  · -- the scan failed: pass 2 clears the row tail, pass 3 refills it
    have hlt : (cstar : ℤ) + 1 < (cols : ℤ) := by
      by_contra h2
      have h3 : rowAllFilled cols s1.1 (rstar, cstar) 1 = true :=
        rowAllFilled_of_wide (by show (cols : ℤ) ≤ (cstar : ℤ) + 1; omega)
      rw [hAF] at h3
      exact absurd h3 Bool.false_ne_true
    rw [normPass2_run cols rstar cstar s1 hAF]
    obtain ⟨I2, L2, M2, C2⟩ := pass2_fold cols n rstar cstar
      (intRange ((cstar : ℤ) + 1) (cols : ℤ)) s1
      (fun j hj => mem_intRange.1 hj) I1
    generalize hgen2 : (intRange ((cstar : ℤ) + 1) (cols : ℤ)).foldl
      (shrinkScanStep ((rstar : ℤ) - 1) (rstar : ℤ)) s1 = s2 at I2 L2 M2 C2 ⊢
    obtain ⟨A1, A2, A3, A4, A5, A6, A7, A8⟩ := I2
    have hn1 : n - 1 < s2.2.length := by
      by_contra h2
      rw [List.get?_eq_getElem?, List.getElem?_eq_none (by omega)] at A7
      cases A7
    have hL2 : s2.1.length = g.length := L2.trans L1
    have hrlen : rstar < s2.1.length := by omega
    have hclr : ∀ (j : ℕ), cstar + 1 ≤ j → j < cols → cellG s2.1 rstar j = none := by
      intro j h1 h2
      have h3 := C2 (j : ℤ) (mem_intRange.2 ⟨by omega, by omega⟩)
      rwa [show ((j : ℕ) : ℤ).toNat = j from by omega] at h3
    have hAF2 : rowAllFilled cols s2.1 (rstar, cstar) 1 = false := by
      by_contra h2
      rw [Bool.not_eq_false] at h2
      have h3 := (rowAllFilled_iff.1 h2) ((cstar : ℤ) + 1)
        (mem_intRange.2 ⟨by show (cstar : ℤ) + 1 ≤ (cstar : ℤ) + 1; omega,
          by show (cstar : ℤ) + 1 < (cols : ℤ); omega⟩)
      have h4 : (cellG s2.1 rstar (((cstar : ℤ) + 1).toNat)).isSome = true := h3.2
      rw [show ((cstar : ℤ) + 1).toNat = cstar + 1 from by omega,
        hclr (cstar + 1) (by omega) (by omega)] at h4
      cases h4
    have hG3 : (normPass3 cols s2 (rstar, cstar) 1 1 (n - 1)).1 =
        writeCells s2.1 (intRange (rstar : ℤ) ((rstar : ℤ) + 1))
          (intRange ((cstar : ℤ) + 1) (cols : ℤ)) (some (n - 1)) := by
      rw [normPass3_run cols rstar cstar (n - 1) s2 hAF2]
    have hP3 : (normPass3 cols s2 (rstar, cstar) 1 1 (n - 1)).2 =
        s2.2.set (n - 1)
          (⟨n - 1, (rstar, cstar), 1, (cols : ℤ) - (cstar : ℤ)⟩ : Placement) := by
      rw [normPass3_run cols rstar cstar (n - 1) s2 hAF2]
      show (match s2.2.get? (s2.2.length - 1) with
          | some p => s2.2.set (s2.2.length - 1) { p with cols := (cols : ℤ) - (cstar : ℤ) }
          | none => s2.2) = _
      rw [show s2.2.length - 1 = n - 1 from by rw [A8], A7]
    rw [hG3, hP3]
    have hchar3 : ∀ (i j : ℕ),
        cellG (writeCells s2.1 (intRange (rstar : ℤ) ((rstar : ℤ) + 1))
          (intRange ((cstar : ℤ) + 1) (cols : ℤ)) (some (n - 1))) i j =
        if i = rstar ∧ cstar + 1 ≤ j ∧ j < cols ∧ i < s2.1.length then some (n - 1)
        else cellG s2.1 i j := by
      intro i j
      rw [cellG_writeCells]
      by_cases h : i = rstar ∧ cstar + 1 ≤ j ∧ j < cols ∧ i < s2.1.length
      · rw [if_pos h, if_pos ⟨mem_intRange.2 ⟨by omega, by omega⟩,
          mem_intRange.2 ⟨by omega, by omega⟩, h.2.2.2⟩]
      · rw [if_neg h, if_neg (by
          rintro ⟨h1, h2, h3⟩
          rcases mem_intRange.1 h1 with ⟨h1a, h1b⟩
          rcases mem_intRange.1 h2 with ⟨h2a, h2b⟩
          exact h ⟨by omega, by omega, by omega, h3⟩)]
    refine ⟨?_, ?_, ?_, ?_⟩
    · rw [List.length_take, length_writeCells, hL2]
      omega
    · intro i j hi hj
      rw [cellG_take (by omega) j, hchar3 i j]
      by_cases hcase : i = rstar ∧ cstar + 1 ≤ j ∧ j < cols ∧ i < s2.1.length
      · rw [if_pos hcase]
        simp
      · rw [if_neg hcase]
        rcases Nat.lt_or_ge i rstar with h | h
        · exact A5 i j hj (Or.inl h)
        · have hieq : i = rstar := by omega
          subst hieq
          rcases Nat.lt_trichotomy j cstar with h2 | h2 | h2
          · exact A5 i j hj (Or.inr ⟨rfl, h2⟩)
          · subst h2
            rw [A6]
            simp
          · exact absurd ⟨rfl, by omega, hj, hrlen⟩ hcase
    · intro m q hm
      rcases eq_or_ne (n - 1) m with h | h
      · subst h
        rw [get?_set_self hn1] at hm
        cases hm
        rfl
      · rw [get?_set_ne h] at hm
        exact A1 m q hm
    · intro m q hm i j hi hij
      rw [cellG_take (by omega) j, hchar3 i j]
      rcases eq_or_ne (n - 1) m with h | h
      · subst h
        rw [get?_set_self hn1] at hm
        cases hm
        have u1 : rstar ≤ i := hij.1
        have u2 : (i : ℤ) < (rstar : ℤ) + 1 := hij.2.1
        have u3 : cstar ≤ j := hij.2.2.1
        have u4 : (j : ℤ) < (cstar : ℤ) + ((cols : ℤ) - (cstar : ℤ)) := hij.2.2.2
        have hieq : i = rstar := by omega
        subst hieq
        rcases eq_or_ne j cstar with h2 | h2
        · subst h2
          rw [if_neg (by rintro ⟨_, hh, _⟩; omega)]
          exact A6
        · rw [if_pos ⟨rfl, by omega, by omega, hrlen⟩]
      · rw [get?_set_ne h] at hm
        have hcell := A3 m q hm i j hij
        rw [if_neg (by
          rintro ⟨e1, e2, e3, _⟩
          rw [e1] at hcell
          rw [hclr j e2 e3] at hcell
          cases hcell)]
        exact hcell
  · -- the scan succeeded: passes 2 and 3 are the identity
    rw [normPass2_id hAF, normPass3_id hAF]
    obtain ⟨A1, A2, A3, A4, A5, A6, A7, A8⟩ := I1
    refine ⟨?_, ?_, ?_, ?_⟩
    · rw [List.length_take, L1]
      omega
    · intro i j hi hj
      rw [cellG_take (by omega) j]
      rcases Nat.lt_or_ge i rstar with h | h
      · exact A5 i j hj (Or.inl h)
      · have hieq : i = rstar := by omega
        subst hieq
        rcases Nat.lt_trichotomy j cstar with h2 | h2 | h2
        · exact A5 i j hj (Or.inr ⟨rfl, h2⟩)
        · subst h2
          rw [A6]
          simp
        · have h3 := (rowAllFilled_iff.1 hAF) ((j : ℕ) : ℤ)
            (mem_intRange.2 ⟨by show (cstar : ℤ) + 1 ≤ ((j : ℕ) : ℤ); omega,
              by show ((j : ℕ) : ℤ) < (cols : ℤ); omega⟩)
          have h4 : (cellG s1.1 i (((j : ℕ) : ℤ).toNat)).isSome = true := h3.2
          rw [show ((j : ℕ) : ℤ).toNat = j from by omega] at h4
          exact Option.isSome_iff_ne_none.1 h4
    · exact A1
    · intro m q hm i j hi hij
      rw [cellG_take (by omega) j]
      exact A3 m q hm i j hij

/-- Swapping two positions introduces no new elements. -/
theorem mem_listSwap {l : List α} {a b : ℕ} {x : α} (h : x ∈ listSwap l a b) : x ∈ l := by
  unfold listSwap at h
  rcases hga : l.get? a with _ | u <;> rcases hgb : l.get? b with _ | v <;> rw [hga, hgb] at h
  · exact h
  · exact h
  · exact h
  · rcases List.mem_or_eq_of_mem_set h with h2 | h2
    · rcases List.mem_or_eq_of_mem_set h2 with h3 | h3
      · exact h3
      · subst h3
        exact mem_of_get? hgb
    · subst h2
      exact mem_of_get? hga

/-- The Fisher-Yates loop introduces no new elements. -/
theorem mem_shuffleFYAux (rnd : ℕ → ℕ) :
    ∀ (c : ℕ) (l : List α) (x : α), x ∈ shuffleFYAux rnd c l → x ∈ l := by
  intro c
  induction c with
  | zero => intro l x h; exact h
  | succ c ih => intro l x h; exact mem_listSwap (ih _ x h)

/-- The canonical shuffle family returns elements of its input pool. -/
theorem mem_shZero {k : ℕ} {l : List Size} {sz : Size} (h : sz ∈ shZero k l) : sz ∈ l :=
  mem_shuffleFYAux (fun _ => 0) l.length l sz h

/-- A packing run may start from the empty state. -/
theorem packInv_nil (cols : ℕ) : packInv cols [] [] := by
  refine ⟨?_, ?_, ?_, ?_, ?_⟩
  · intro m p h; cases h
  · intro m p h; cases h
  · intro m p h; cases h
  · intro i j id h
    rw [cellG_out (by simp) j] at h
    cases h
  · intro m p h; cases h

/-- C1 (amended): with no per-index size overrides (`startsWith` empty),
for every valid input (`totalCols >= 1`, a nonempty item list, every size
of the default pool and of every class pool at least `1 x 1`, the shuffle
returning elements of its input) -- arbitrary `classSizes` configurations
included -- after packing and the three normalization passes every cell of
the region `[0, totalRows) x [0, totalCols)` is occupied, and no such cell
lies in two distinct placements' rectangles. -/
theorem claim_C1_amended (sh : ℕ → List Size → List Size)
    (hsh : ∀ k l, ∀ sz ∈ sh k l, sz ∈ l) (cols : ℕ) (hc : 1 ≤ cols)
    (pool : List Size) (hpool : ∀ sz ∈ pool, 1 ≤ sz.1 ∧ 1 ≤ sz.2)
    (classSizes0 : List (String × List Size))
    (hcsv : ∀ e ∈ classSizes0, ∀ s ∈ e.2, 1 ≤ s.1 ∧ 1 ≤ s.2)
    (items : List (List String)) (hits : items ≠ []) :
    (∀ (i j : ℕ), i < (layoutP000 sh cols pool [] classSizes0 items).totalRows → j < cols →
      cellG (layoutP000 sh cols pool [] classSizes0 items).grid i j ≠ none) ∧
    (∀ (i j : ℕ) (p q : Placement),
      i < (layoutP000 sh cols pool [] classSizes0 items).totalRows →
      j < cols → p ∈ (layoutP000 sh cols pool [] classSizes0 items).placements →
      q ∈ (layoutP000 sh cols pool [] classSizes0 items).placements →
      inRect p i j → inRect q i j → p = q) := by
  rcases items with _ | ⟨c, rest⟩
  · exact absurd rfl hits
  obtain ⟨rstar, cstar, hI, hcc, hrl, hlast⟩ :=
    packList_layoutInv sh cols hsh hc (c :: rest).length (c :: rest) 0
      (⟨[], pool, classSizes0, 0, []⟩ : PackState) (List.cons_ne_nil c rest)
      (Nat.zero_add _).symm (packInv_nil cols) rfl hpool hcsv
  have hgrid : (layoutP000 sh cols pool [] classSizes0 (c :: rest)).grid =
      (normalizeGrid cols
        (packList sh cols (c :: rest).length [] (c :: rest) 0
          (⟨[], pool, classSizes0, 0, []⟩ : PackState)).grid
        (packList sh cols (c :: rest).length [] (c :: rest) 0
          (⟨[], pool, classSizes0, 0, []⟩ : PackState)).placements).1 := rfl
  have hrows : (layoutP000 sh cols pool [] classSizes0 (c :: rest)).totalRows =
      (normalizeGrid cols
        (packList sh cols (c :: rest).length [] (c :: rest) 0
          (⟨[], pool, classSizes0, 0, []⟩ : PackState)).grid
        (packList sh cols (c :: rest).length [] (c :: rest) 0
          (⟨[], pool, classSizes0, 0, []⟩ : PackState)).placements).1.length := rfl
  have hpls : (layoutP000 sh cols pool [] classSizes0 (c :: rest)).placements =
      (normalizeGrid cols
        (packList sh cols (c :: rest).length [] (c :: rest) 0
          (⟨[], pool, classSizes0, 0, []⟩ : PackState)).grid
        (packList sh cols (c :: rest).length [] (c :: rest) 0
          (⟨[], pool, classSizes0, 0, []⟩ : PackState)).placements).2 := rfl
  rw [hgrid, hrows, hpls, normalizeGrid_eq_passes hlast cols]
  obtain ⟨N1, N2, N3, N4⟩ :=
    normalizePasses_spec cols (c :: rest).length rstar cstar
      (packList sh cols (c :: rest).length [] (c :: rest) 0
        (⟨[], pool, classSizes0, 0, []⟩ : PackState)).grid
      (packList sh cols (c :: rest).length [] (c :: rest) 0
        (⟨[], pool, classSizes0, 0, []⟩ : PackState)).placements hcc hrl hI
  rw [N1]
  constructor
  · intro i j hi hj
    exact N2 i j (by omega) hj
  · intro i j p q hi hj hp hq hpin hqin
    obtain ⟨mp, hmp⟩ := get?_of_mem hp
    obtain ⟨mq, hmq⟩ := get?_of_mem hq
    have e1 := N4 mp p hmp i j (by omega) hpin
    have e2 := N4 mq q hmq i j (by omega) hqin
    rw [e1] at e2
    have hid : p.id = q.id := Option.some.inj e2
    have hip := N3 mp p hmp
    have hiq := N3 mq q hmq
    have hmeq : mp = mq := by omega
    subst hmeq
    rw [hmp] at hmq
    exact Option.some.inj hmq

/-- Witness for the amended C1 on a concrete run with a nonempty class
pool: two columns, default pool `1 x 1`, a `2 x 2` class pool for class
`wide`, three items of which the first and last carry the class. -/
theorem claim_C1_amended_witness :
    (∀ k l, ∀ sz ∈ shZero k l, sz ∈ l) ∧ 1 ≤ 2 ∧
    (∀ sz ∈ [((1 : ℕ), (1 : ℕ))], 1 ≤ sz.1 ∧ 1 ≤ sz.2) ∧
    (∀ e ∈ [(("wide" : String), [((2 : ℕ), (2 : ℕ))])], ∀ s ∈ e.2, 1 ≤ s.1 ∧ 1 ≤ s.2) ∧
    ([["wide"], [], ["wide"]] : List (List String)) ≠ [] ∧
    ((∀ (i j : ℕ),
        i < (layoutP000 shZero 2 [(1, 1)] [] [("wide", [(2, 2)])]
          [["wide"], [], ["wide"]]).totalRows → j < 2 →
        cellG (layoutP000 shZero 2 [(1, 1)] [] [("wide", [(2, 2)])]
          [["wide"], [], ["wide"]]).grid i j ≠ none) ∧
      (∀ (i j : ℕ) (p q : Placement),
        i < (layoutP000 shZero 2 [(1, 1)] [] [("wide", [(2, 2)])]
          [["wide"], [], ["wide"]]).totalRows → j < 2 →
        p ∈ (layoutP000 shZero 2 [(1, 1)] [] [("wide", [(2, 2)])]
          [["wide"], [], ["wide"]]).placements →
        q ∈ (layoutP000 shZero 2 [(1, 1)] [] [("wide", [(2, 2)])]
          [["wide"], [], ["wide"]]).placements →
        inRect p i j → inRect q i j → p = q)) :=
  ⟨fun _ _ _ h => mem_shZero h, by decide, by decide, by decide, by decide,
    claim_C1_amended shZero (fun _ _ _ h => mem_shZero h) 2 (by decide) [(1, 1)]
      (by decide) [("wide", [(2, 2)])] (by decide) [["wide"], [], ["wide"]] (by decide)⟩
